import Mathlib

/-!
Verification development for the Aevon event-sourced state engine.

This file gives a shallow embedding, in Lean 4, of the core subsystems of the
engine — the idempotent append-only event store, the batch aggregation fold,
the atomic flush-with-checkpoint pre-aggregate store, and the hybrid
projection read path — and proves the specification's quantified invariants
against that embedding.

Modelling conventions:
* `decimal.Decimal` (shopspring, exact arbitrary-precision decimal arithmetic)
  is modelled as `ℚ`; the operations the engine uses (`Add`, `LessThan`,
  `GreaterThan`, `LEAST`/`GREATEST`) are exact on decimals and on `ℚ`.
* `time.Time` and `time.Duration` are modelled as `Int` nanoseconds since the
  Go zero time; `time.Time.Truncate` rounds down (floor division).
* Go maps used as aggregate accumulators are modelled as association lists
  with unique keys (`lookupA` / `setA`); fallible operations return `Except`.
* SQL result sets are modelled as filtered lists; ordered reads (`ORDER BY`)
  keep the strict ascending order that the store invariant provides.
-/

namespace Aevon

/-! ## Decimal values and field extraction

Source: `internal/core/aggregation` (`ExtractDecimal`).  The free-form event
payload `map[string]interface{}` is modelled by `GoVal`: the dynamic values
the Go type switch recognises, plus a catch-all.  A Go `string` value carries
the result of `decimal.NewFromString` on it (`none` when unparseable). -/

inductive GoVal where
  | f64 (v : ℚ)
  | f32 (v : ℚ)
  | goInt (v : Int)
  | goInt64 (v : Int)
  | goInt32 (v : Int)
  | str (parsed : Option ℚ)
  | other
deriving DecidableEq

/-- Go map lookup on an association list (first binding wins; Go maps have
unique keys, which our constructions maintain). -/
def lookupA {κ σ : Type} [DecidableEq κ] (m : List (κ × σ)) (k : κ) : Option σ :=
  (m.find? (fun p => p.1 = k)).map (fun p => p.2)

/-- Go map assignment `m[k] = v`: replace the binding in place if present,
otherwise append. -/
def setA {κ σ : Type} [DecidableEq κ] (m : List (κ × σ)) (k : κ) (v : σ) :
    List (κ × σ) :=
  match m with
  | [] => [(k, v)]
  | (k', v') :: rest =>
      if k' = k then (k, v) :: rest else (k', v') :: setA rest k v

/-- ExtractDecimal pulls a numeric value from the event's `Data` map by field
name; returns zero if the field is missing, empty, or not a recognized
numeric type (`internal/core/aggregation`, `ExtractDecimal`). -/
def extractDecimal (data : List (String × GoVal)) (field : String) : ℚ :=
  if field = "" then 0
  else
    match lookupA data field with
    | none => 0
    | some v =>
      match v with
      | .f64 q => q
      | .f32 q => q
      | .goInt n => (n : ℚ)
      | .goInt64 n => (n : ℚ)
      | .goInt32 n => (n : ℚ)
      | .str parsed =>
        match parsed with
        | some d => d
        | none => 0
      | .other => 0

/-! ## Partitioning

Source: `internal/core/partition/partition.go`.  FNV-32a over the UTF-8 bytes
of the input, taken modulo a fixed partition count of 256. -/

/-- Count is the fixed number of logical partitions. -/
def partitionCount : Nat := 256

/-- FNV-32a offset basis. -/
def fnv32Offset : Nat := 2166136261

/-- FNV-32a prime. -/
def fnv32Prime : Nat := 16777619

/-- FNV-32a over a byte sequence: per byte, XOR then multiply, modulo 2^32. -/
def fnv32a (bytes : List Nat) : Nat :=
  bytes.foldl (fun h b => ((h ^^^ b) * fnv32Prime) % (2 ^ 32)) fnv32Offset

/-- UTF-8 encoding of one character as its byte values. -/
def utf8BytesOfChar (c : Char) : List Nat :=
  let n := c.toNat
  if n < 0x80 then [n]
  else if n < 0x800 then [0xC0 ||| (n >>> 6), 0x80 ||| (n &&& 0x3F)]
  else if n < 0x10000 then
    [0xE0 ||| (n >>> 12), 0x80 ||| ((n >>> 6) &&& 0x3F), 0x80 ||| (n &&& 0x3F)]
  else
    [0xF0 ||| (n >>> 18), 0x80 ||| ((n >>> 12) &&& 0x3F),
     0x80 ||| ((n >>> 6) &&& 0x3F), 0x80 ||| (n &&& 0x3F)]

/-- UTF-8 bytes of a string (`[]byte(s)` in Go). -/
def utf8Bytes (s : String) : List Nat :=
  s.data.flatMap utf8BytesOfChar

/-- partitionFor returns the partition ID for a given ID string: FNV-32a of
its bytes modulo the partition count (`partition.For`). -/
def partitionFor (s : String) : Int :=
  Int.ofNat (fnv32a (utf8Bytes s) % partitionCount)

/-! ## Time and bucketing

Source: `internal/core/aggregation` window helpers.  Durations in
nanoseconds, mirroring Go `time.Duration`. -/

/-- Nanoseconds in one minute (`time.Minute`). -/
def minuteNs : Int := 60000000000

/-- Nanoseconds in one hour (`time.Hour`). -/
def hourNs : Int := 3600000000000

/-- Nanoseconds in one day (`24 * time.Hour`). -/
def dayNs : Int := 86400000000000

/-- bucketFor truncates a timestamp to the nearest granularity boundary,
rounding down like Go's `time.Time.Truncate` (`BucketFor`). -/
def bucketFor (t : Int) (granularity : Int) : Int :=
  granularity * (Int.fdiv t granularity)

/-! ## Events and the event store

Source: `internal/api/v1/event.go` (the principal-keyed `Event` variant) and
`internal/core/storage/postgres` (`querySaveEvent`,
`queryRetrieveEventsAfterCursor`, `queryRetrieveScopedEventsAfterCursor`,
`SaveEvent`, `RetrieveEventsAfterCursor`, `RetrieveScopedEventsAfterCursor`).
The `events` table is modelled as the list `log` kept in insertion order
together with the `BIGSERIAL` counter `nextSeq`; the store invariant
(`EventStoreWF`) makes `ingest_seq` strictly ascending along `log`, so
`ORDER BY ingest_seq ASC` is the identity on the filtered log. -/

structure Event where
  id : String
  principalID : String
  type : String
  schemaVersion : Int
  occurredAt : Int
  ingestedAt : Int
  ingestSeq : Int
  metadata : List (String × String)
  data : List (String × GoVal)
deriving DecidableEq

structure EventStoreState where
  nextSeq : Int
  log : List Event
deriving DecidableEq

/-- Freshly initialised event store: empty log, `BIGSERIAL` starts at 1. -/
def initEventStore : EventStoreState := { nextSeq := 1, log := [] }

inductive SaveOutcome where
  | saved (ingestSeq : Int)
  | duplicate
deriving DecidableEq

/-- saveEvent persists an event and populates its `ingest_seq`
(`SaveEvent` over `querySaveEvent`).  `ON CONFLICT (principal_id, id)
DO NOTHING RETURNING ingest_seq` surfaces an existing key as the
distinguished duplicate outcome without touching the log and without
assigning a sequence.  (Postgres may burn a serial value on a conflicting
insert; no claim depends on gaps, so the model leaves `nextSeq` unchanged
on duplicates.) -/
def saveEvent (s : EventStoreState) (e : Event) : SaveOutcome × EventStoreState :=
  if ∃ x ∈ s.log, x.principalID = e.principalID ∧ x.id = e.id then
    (SaveOutcome.duplicate, s)
  else
    (SaveOutcome.saved s.nextSeq,
      { nextSeq := s.nextSeq + 1, log := s.log ++ [{ e with ingestSeq := s.nextSeq }] })

/-- retrieveEventsAfterCursor fetches up to `limit` events with
`ingest_seq > cursor` in ascending `ingest_seq` order
(`RetrieveEventsAfterCursor` over `queryRetrieveEventsAfterCursor`). -/
def retrieveEventsAfterCursor (s : EventStoreState) (cursor : Int) (limit : Nat) :
    List Event :=
  (s.log.filter (fun e => cursor < e.ingestSeq)).take limit

/-- retrieveScopedEventsAfterCursor fetches up to `limit` events in strict
order for one projection query scope: one principal, one event type,
`start ≤ occurred_at < end`, `ingest_seq > cursor`
(`queryRetrieveScopedEventsAfterCursor`). -/
def retrieveScopedEventsAfterCursor (s : EventStoreState) (cursor : Int)
    (principalID eventType : String) (startT endT : Int) (limit : Nat) :
    List Event :=
  (s.log.filter (fun e =>
    cursor < e.ingestSeq ∧ e.principalID = principalID ∧ e.type = eventType ∧
    startT ≤ e.occurredAt ∧ e.occurredAt < endT)).take limit

/-- EventStoreWF is the durable-store invariant: `ingest_seq` strictly
ascending along the log (unique index plus insertion order) and below the
serial counter. -/
def EventStoreWF (s : EventStoreState) : Prop :=
  s.log.Pairwise (fun a b => a.ingestSeq < b.ingestSeq) ∧
  ∀ e ∈ s.log, e.ingestSeq < s.nextSeq

instance (s : EventStoreState) : Decidable (EventStoreWF s) := by
  unfold EventStoreWF; infer_instance

/-! ## Aggregation operators and rules

Source: `internal/core/aggregation` (`Operators`, `countAgg`, `sumAgg`,
`minAgg`, `maxAgg`, `AggregateKey`, `AggregateState`, `AggregationRule`). -/

/-- Aggregator defines the reduce semantics of an aggregation operator:
`Initial` for the first event in a bucket, `Apply` to fold subsequent
events. -/
structure AggregatorImpl where
  initial : ℚ → ℚ
  apply : ℚ → ℚ → ℚ

def OpCount : String := "count"

def OpSum : String := "sum"

def OpMin : String := "min"

def OpMax : String := "max"

/-- countAgg increments by 1 per event; the incoming value is ignored. -/
def countAgg : AggregatorImpl :=
  { initial := fun _ => 1, apply := fun cur _ => cur + 1 }

/-- sumAgg accumulates the sum of incoming values. -/
def sumAgg : AggregatorImpl :=
  { initial := fun v => v, apply := fun cur inc => cur + inc }

/-- minAgg tracks the minimum value seen (`if inc.LessThan(cur)`). -/
def minAgg : AggregatorImpl :=
  { initial := fun v => v, apply := fun cur inc => if inc < cur then inc else cur }

/-- maxAgg tracks the maximum value seen (`if inc.GreaterThan(cur)`). -/
def maxAgg : AggregatorImpl :=
  { initial := fun v => v, apply := fun cur inc => if cur < inc then inc else cur }

/-- Operators is the registry of all supported aggregation operators,
modelled as the lookup function of the Go map. -/
def Operators (op : String) : Option AggregatorImpl :=
  if op = OpCount then some countAgg
  else if op = OpSum then some sumAgg
  else if op = OpMin then some minAgg
  else if op = OpMax then some maxAgg
  else none

/-- ValidOperator reports whether op is a registered aggregation operator. -/
def ValidOperator (op : String) : Bool :=
  (Operators op).isSome

structure AggregationRule where
  name : String
  sourceEvent : String
  operator : String
  field : String
  windowSize : Int
  fingerprint : String
deriving DecidableEq

/-- AggregateKey uniquely identifies a pre-aggregate bucket. -/
structure AggregateKey where
  partitionID : Int
  principalID : String
  ruleName : String
  bucketSize : String
  windowStart : Int
deriving DecidableEq

/-- AggregateState holds the current materialized value of a pre-aggregate. -/
structure AggregateState where
  operator : String
  value : ℚ
  eventCount : Int
  lastEventID : String
  ruleFingerprint : String
  windowStart : Int
  updatedAt : Int
deriving DecidableEq

/-! ## Batch aggregation engine

Source: `internal/aggregation/cron_batch_aggregation.go`. -/

structure CompiledRule where
  rule : AggregationRule
  agg : AggregatorImpl

/-- toCompiledRuleMap compiles the rule list into the mapping from event type
to (rule, operator-reducer) pairs; rules with an unknown operator are
skipped.  The Go code materialises this map once; we model the lookup for a
given event type, preserving rule order. -/
def toCompiledRuleMap (rules : List AggregationRule) (eventType : String) :
    List CompiledRule :=
  rules.filterMap (fun r =>
    if r.sourceEvent = eventType then
      (Operators r.operator).map (fun a => ⟨r, a⟩)
    else none)

def defaultBatchSize : Int := 50000

def defaultWorkerCount : Int := 10

/-- Nanoseconds in one second (`time.Second`). -/
def secondNs : Int := 1000000000

/-- BatchJobParameter controls throughput and aggregation behavior for a
batch run. -/
structure BatchJobParameter where
  batchSize : Int
  workerCount : Int
  bucketSize : Int
  bucketLabel : String
deriving DecidableEq

/-- windowSizeLabel renders a bucket duration as its label ("1m", "1h", …).
Go's `%` and `/` on `time.Duration` are truncated (T-) division.  The final
fallback is Go's `Duration.String()`, whose exact rendering is opaque here;
it is never reached for the bucket sizes the engine uses. -/
def windowSizeLabel (d : Int) : String :=
  if Int.tmod d dayNs = 0 then toString (Int.tdiv d dayNs) ++ "d"
  else if Int.tmod d hourNs = 0 then toString (Int.tdiv d hourNs) ++ "h"
  else if Int.tmod d minuteNs = 0 then toString (Int.tdiv d minuteNs) ++ "m"
  else if Int.tmod d secondNs = 0 then toString (Int.tdiv d secondNs) ++ "s"
  else toString d

/-- DefaultBatchJobOptions returns safe defaults for cron-based processing. -/
def DefaultBatchJobOptions : BatchJobParameter :=
  { batchSize := defaultBatchSize, workerCount := defaultWorkerCount,
    bucketSize := minuteNs, bucketLabel := "1m" }

/-- normalized fills non-positive or empty batch options with defaults
(`BatchJobParameter.normalized`). -/
def BatchJobParameter.normalized (o : BatchJobParameter) : BatchJobParameter :=
  let b := if o.batchSize ≤ 0 then defaultBatchSize else o.batchSize
  let w := if o.workerCount ≤ 0 then defaultWorkerCount else o.workerCount
  let d := if o.bucketSize ≤ 0 then minuteNs else o.bucketSize
  let l := if o.bucketLabel = "" then windowSizeLabel d else o.bucketLabel
  { batchSize := b, workerCount := w, bucketSize := d, bucketLabel := l }

/-- mkAggKey forms the Aggregate Key the worker builds for one event under
one rule: hash partition of the principal, the principal, the rule name, the
bucket label, and `occurred_at` truncated to the bucket. -/
def mkAggKey (evt : Event) (cr : CompiledRule) (opts : BatchJobParameter) :
    AggregateKey :=
  { partitionID := partitionFor evt.principalID,
    principalID := evt.principalID,
    ruleName := cr.rule.name,
    bucketSize := opts.bucketLabel,
    windowStart := bucketFor evt.occurredAt opts.bucketSize }

/-- applyRuleToEvent is the body of the worker's inner loop in
`mergeGroupAggregates`: on first sighting of the key initialize via the
operator's `Initial` (the Go zero `time.Time` leaves `WindowStart` zero in
the state; the key carries the real window), otherwise fold via `Apply`. -/
def applyRuleToEvent (target : List (AggregateKey × AggregateState))
    (evt : Event) (cr : CompiledRule) (opts : BatchJobParameter) (now : Int) :
    List (AggregateKey × AggregateState) :=
  match lookupA target (mkAggKey evt cr opts) with
  | none =>
      setA target (mkAggKey evt cr opts)
        { operator := cr.rule.operator,
          value := cr.agg.initial (extractDecimal evt.data cr.rule.field),
          eventCount := 1, lastEventID := evt.id,
          ruleFingerprint := cr.rule.fingerprint, windowStart := 0,
          updatedAt := now }
  | some st =>
      setA target (mkAggKey evt cr opts)
        { operator := st.operator,
          value := cr.agg.apply st.value (extractDecimal evt.data cr.rule.field),
          eventCount := st.eventCount + 1, lastEventID := evt.id,
          ruleFingerprint := st.ruleFingerprint,
          windowStart := st.windowStart, updatedAt := now }

/-- processEventRules folds one event through every rule matching its type
(an absent event type means no rules, so the event is skipped). -/
def processEventRules (target : List (AggregateKey × AggregateState))
    (evt : Event) (rules : List AggregationRule) (opts : BatchJobParameter)
    (now : Int) : List (AggregateKey × AggregateState) :=
  (toCompiledRuleMap rules evt.type).foldl
    (fun t cr => applyRuleToEvent t evt cr opts now) target

/-- mergeGroupAggregates folds a slice of events into the target aggregate
map (`mergeGroupAggregates` in `cron_batch_aggregation.go`). -/
def mergeGroupAggregates (target : List (AggregateKey × AggregateState))
    (events : List Event) (rules : List AggregationRule)
    (opts : BatchJobParameter) (now : Int) :
    List (AggregateKey × AggregateState) :=
  events.foldl (fun t evt => processEventRules t evt rules opts now) target

/-- mergeValueByOperator merges two per-key values when worker-local maps are
combined: count/sum add; min/max take the extremum; unknown operators keep
the incoming value. -/
def mergeValueByOperator (operator : String) (current incoming : ℚ) : ℚ :=
  if operator = OpCount ∨ operator = OpSum then current + incoming
  else if operator = OpMin then (if incoming < current then incoming else current)
  else if operator = OpMax then (if current < incoming then incoming else current)
  else incoming

/-- maxTime (`a.After(b)` selects the later timestamp). -/
def maxTime (a b : Int) : Int :=
  if b < a then a else b

/-- minTime (`a.Before(b)` selects the earlier timestamp;
`internal/projection/service.go`). -/
def minTime (a b : Int) : Int :=
  if a < b then a else b

def minInt (a b : Int) : Int :=
  if a < b then a else b

/-- groupPrincipals lists the distinct principal IDs of a batch in first
appearance order (the key set of the Go `groups` map). -/
def groupPrincipals (events : List Event) : List String :=
  events.foldl (fun acc e => if e.principalID ∈ acc then acc else acc ++ [e.principalID]) []

/-- groupOf gives the events of one principal group, in batch order (the Go
code appends each event to its group in slice order). -/
def groupOf (events : List Event) (p : String) : List Event :=
  events.filter (fun e => e.principalID = p)

/-- workerLocalAggregates is the loop body of one concurrent worker: starting
from an empty local map, fold each principal group taken from the work
queue. -/
def workerLocalAggregates (events : List Event) (rules : List AggregationRule)
    (opts : BatchJobParameter) (now : Int) (ps : List String) :
    List (AggregateKey × AggregateState) :=
  ps.foldl (fun l p => mergeGroupAggregates l (groupOf events p) rules opts now) []

/-- mergeStateInto is the body of the merge loop in
`buildPreAggregatesConcurrently`: insert one worker-local binding into the
merged map, combining a clashing key with `mergeValueByOperator` (the
defensive merge). -/
def mergeStateInto (m : List (AggregateKey × AggregateState))
    (kv : AggregateKey × AggregateState) : List (AggregateKey × AggregateState) :=
  match lookupA m kv.1 with
  | some existing =>
      setA m kv.1
        { operator := existing.operator,
          value := mergeValueByOperator existing.operator existing.value kv.2.value,
          eventCount := existing.eventCount + kv.2.eventCount,
          lastEventID := kv.2.lastEventID,
          ruleFingerprint := kv.2.ruleFingerprint,
          windowStart := existing.windowStart,
          updatedAt := maxTime existing.updatedAt kv.2.updatedAt }
  | none => setA m kv.1 kv.2

/-- mergeWorkerResults merges one worker-local map into the accumulated
merged map.  Each key of the local map is visited exactly once, so the fold
over its bindings models the Go `range` loop regardless of map iteration
order. -/
def mergeWorkerResults (merged localMap : List (AggregateKey × AggregateState)) :
    List (AggregateKey × AggregateState) :=
  localMap.foldl mergeStateInto merged

/-- buildPreAggregatesConcurrently: group the batch by principal, let workers
fold disjoint groups into local maps, then merge the local maps.  The
`schedule` parameter abstracts the nondeterminism of the work queue and of
goroutine scheduling: each inner list is the sequence of principal groups one
worker consumed, and the refinement theorem quantifies over every schedule
whose flattening is a permutation of the group keys (this covers every
worker count and every channel ordering). -/
def buildPreAggregatesConcurrently (events : List Event)
    (rules : List AggregationRule) (opts : BatchJobParameter) (now : Int)
    (schedule : List (List String)) : List (AggregateKey × AggregateState) :=
  (schedule.map (workerLocalAggregates events rules opts now)).foldl
    mergeWorkerResults []

/-! ## Analysis helpers for the fold characterization (not part of the
source; used to state and prove the fold theorems) -/

/-- contribList collects, in batch order, the (event, rule) pairs that
contribute to one aggregate key. -/
def contribList (events : List Event) (rules : List AggregationRule)
    (opts : BatchJobParameter) (k : AggregateKey) :
    List (Event × CompiledRule) :=
  events.flatMap (fun e =>
    ((toCompiledRuleMap rules e.type).filter
      (fun cr => mkAggKey e cr opts = k)).map (fun cr => (e, cr)))

/-- stepKeyState is the per-contribution state transition of the worker loop
restricted to one key. -/
def stepKeyState (cur : Option AggregateState) (p : Event × CompiledRule)
    (now : Int) : AggregateState :=
  match cur with
  | none =>
      { operator := p.2.rule.operator,
        value := p.2.agg.initial (extractDecimal p.1.data p.2.rule.field),
        eventCount := 1, lastEventID := p.1.id,
        ruleFingerprint := p.2.rule.fingerprint, windowStart := 0,
        updatedAt := now }
  | some st =>
      { operator := st.operator,
        value := p.2.agg.apply st.value (extractDecimal p.1.data p.2.rule.field),
        eventCount := st.eventCount + 1, lastEventID := p.1.id,
        ruleFingerprint := st.ruleFingerprint, windowStart := st.windowStart,
        updatedAt := now }

/-- foldKeyState folds a contribution list into an optional per-key state. -/
def foldKeyState (cur : Option AggregateState) (l : List (Event × CompiledRule))
    (now : Int) : Option AggregateState :=
  l.foldl (fun c p => some (stepKeyState c p now)) cur

/-- contribVals lists the extracted decimal values of the contributions. -/
def contribVals (events : List Event) (rules : List AggregationRule)
    (opts : BatchJobParameter) (k : AggregateKey) : List ℚ :=
  (contribList events rules opts k).map
    (fun p => extractDecimal p.1.data p.2.rule.field)

/-! ## Pre-aggregate store

Source: `internal/core/storage/postgres/pre_aggregate_adapter.go`
(`Flush`, `ReadCheckpoint`, `QueryRange`, `QueryRangeWithCheckpoint` and the
SQL they execute).  The `pre_aggregates` table is the association list
`table` (primary key `(partition_id, principal_id, rule_name, bucket_size,
window_start)` = `AggregateKey`); `sweep_checkpoints` is the association
list `checkpoints` from bucket label to cursor (the audit-only `updated_at`
columns are not modelled). -/

/-- PreAggRow is one row of `pre_aggregates` apart from its key columns. -/
structure PreAggRow where
  operator : String
  value : ℚ
  eventCount : Int
  lastEventID : String
  ruleFingerprint : String
  updatedAt : Int
deriving DecidableEq

structure PreAggStoreState where
  checkpoints : List (String × Int)
  table : List (AggregateKey × PreAggRow)
deriving DecidableEq

def initPreAggStore : PreAggStoreState := { checkpoints := [], table := [] }

def defaultBucketSize : String := "1m"

/-- sqlMergeValue is the `CASE EXCLUDED.operator` expression of the upsert:
count/sum add, min takes `LEAST`, max takes `GREATEST`, anything else keeps
the incoming value. -/
def sqlMergeValue (op : String) (oldV newV : ℚ) : ℚ :=
  if op = "count" then oldV + newV
  else if op = "sum" then oldV + newV
  else if op = "min" then min oldV newV
  else if op = "max" then max oldV newV
  else newV

/-- upsertPreAggregate executes `queryUpsertPreAggregate` for one aggregate:
insert the row, or on conflict merge `value` by operator, add `event_count`,
and overwrite `last_event_id`, `rule_fingerprint`, `updated_at` (the stored
`operator` column is not in the update list, so it keeps its old value). -/
def upsertPreAggregate (table : List (AggregateKey × PreAggRow))
    (key : AggregateKey) (st : AggregateState) :
    List (AggregateKey × PreAggRow) :=
  match lookupA table key with
  | none =>
      setA table key
        { operator := st.operator, value := st.value,
          eventCount := st.eventCount, lastEventID := st.lastEventID,
          ruleFingerprint := st.ruleFingerprint, updatedAt := st.updatedAt }
  | some old =>
      setA table key
        { operator := old.operator,
          value := sqlMergeValue st.operator old.value st.value,
          eventCount := old.eventCount + st.eventCount,
          lastEventID := st.lastEventID,
          ruleFingerprint := st.ruleFingerprint, updatedAt := st.updatedAt }

/-- applyUpserts is the upsert loop of `Flush`: each aggregate's (defaulted)
bucket size must match the flush's bucket size, a mismatch being a fatal
error that aborts the whole transaction. -/
def applyUpserts (table : List (AggregateKey × PreAggRow))
    (aggs : List (AggregateKey × AggregateState)) (bucket : String) :
    Except String (List (AggregateKey × PreAggRow)) :=
  match aggs with
  | [] => .ok table
  | (key, st) :: rest =>
      if (if key.bucketSize = "" then defaultBucketSize else key.bucketSize) ≠
          bucket then
        .error "pre_aggregate flush: aggregate bucket mismatch"
      else
        applyUpserts
          (upsertPreAggregate table
            { key with bucketSize :=
                if key.bucketSize = "" then defaultBucketSize else key.bucketSize }
            st)
          rest bucket

/-- readCheckpoint returns the bucket-scoped checkpoint cursor, 0 if no row
exists yet ("replay from beginning"). -/
def readCheckpoint (s : PreAggStoreState) (bucketSize : String) : Int :=
  (lookupA s.checkpoints
    (if bucketSize = "" then defaultBucketSize else bucketSize)).getD 0

/-- flush upserts all pre-aggregates and writes the bucket-scoped checkpoint
cursor in one transaction.  The checkpoint row is locked and read (created
at 0 when absent); if `cursor ≤ durable_cursor` the flush is stale and
returns success with no changes (the open transaction is rolled back, so
the possible init of the checkpoint row at 0 is also undone — and a 0 row
is indistinguishable from an absent row through `readCheckpoint` anyway);
otherwise every upsert and the checkpoint write commit together, and any
failure aborts the entire transaction. -/
def flush (s : PreAggStoreState)
    (aggregates : List (AggregateKey × AggregateState)) (cursor : Int)
    (bucketSize : String) : Except String PreAggStoreState :=
  if cursor ≤ (lookupA s.checkpoints
      (if bucketSize = "" then defaultBucketSize else bucketSize)).getD 0 then
    .ok s
  else
    match applyUpserts s.table aggregates
        (if bucketSize = "" then defaultBucketSize else bucketSize) with
    | .error e => .error e
    | .ok table' =>
        .ok { checkpoints := setA s.checkpoints
                (if bucketSize = "" then defaultBucketSize else bucketSize) cursor,
              table := table' }

/-- insertByWindowStart inserts one row into a list sorted ascending by
`window_start` (used to model `ORDER BY window_start ASC`). -/
def insertByWindowStart (x : AggregateKey × PreAggRow) :
    List (AggregateKey × PreAggRow) → List (AggregateKey × PreAggRow)
  | [] => [x]
  | y :: ys =>
      if x.1.windowStart ≤ y.1.windowStart then x :: y :: ys
      else y :: insertByWindowStart x ys

def sortByWindowStart (l : List (AggregateKey × PreAggRow)) :
    List (AggregateKey × PreAggRow) :=
  l.foldr insertByWindowStart []

/-- rowToState rebuilds an `AggregateState` from a fetched row, taking
`window_start` from the key columns. -/
def rowToState (kv : AggregateKey × PreAggRow) : AggregateState :=
  { operator := kv.2.operator, value := kv.2.value,
    eventCount := kv.2.eventCount, lastEventID := kv.2.lastEventID,
    ruleFingerprint := kv.2.ruleFingerprint,
    windowStart := kv.1.windowStart, updatedAt := kv.2.updatedAt }

/-- queryRange fetches pre-aggregates for a time range, ordered by
`window_start` ascending.  The source uses a fixed `partition_id = 0`
("single-tenant deployments"), while the write path keys rows by
`partition.For(principal_id)`. -/
def queryRange (s : PreAggStoreState) (principalID ruleName bucketSize : String)
    (startTime endTime : Int) : List AggregateState :=
  (sortByWindowStart (s.table.filter (fun kv =>
    kv.1.partitionID = 0 ∧ kv.1.principalID = principalID ∧
    kv.1.ruleName = ruleName ∧
    kv.1.bucketSize =
      (if bucketSize = "" then defaultBucketSize else bucketSize) ∧
    startTime ≤ kv.1.windowStart ∧
    kv.1.windowStart < endTime))).map rowToState

/-- queryRangeWithCheckpoint fetches the range and the bucket checkpoint
from one statement snapshot; in this sequential model it is the pair of the
two reads. -/
def queryRangeWithCheckpoint (s : PreAggStoreState)
    (principalID ruleName bucketSize : String) (startTime endTime : Int) :
    List AggregateState × Int :=
  (queryRange s principalID ruleName bucketSize startTime endTime,
   readCheckpoint s bucketSize)

/-- FlushReq is one Flush call of a sequence. -/
structure FlushReq where
  aggregates : List (AggregateKey × AggregateState)
  cursor : Int
  bucketSize : String
deriving DecidableEq

/-- applyFlush runs one Flush call; an aborted transaction leaves the
durable state unchanged. -/
def applyFlush (s : PreAggStoreState) (r : FlushReq) : PreAggStoreState :=
  match flush s r.aggregates r.cursor r.bucketSize with
  | .ok s' => s'
  | .error _ => s

def applyFlushes (s : PreAggStoreState) (rs : List FlushReq) : PreAggStoreState :=
  rs.foldl applyFlush s

/-! ## Batch aggregation iteration

Source: `internal/aggregation/cron_batch_aggregation.go`
(`RunBatchAggregationWithOptionsReturningCount`).  The model composes the
two pure stores; infrastructure (I/O) failures of the reads are outside the
model, and the in-memory fold is the sequential one (equal to the concurrent
build for every schedule by `concurrent_fold_refines_sequential_fold`). -/

structure SystemState where
  es : EventStoreState
  pas : PreAggStoreState
deriving DecidableEq

/-- buildPreAggregates is the engine's in-memory fold of one batch. -/
def buildPreAggregates (events : List Event) (rules : List AggregationRule)
    (opts : BatchJobParameter) (now : Int) :
    List (AggregateKey × AggregateState) :=
  mergeGroupAggregates [] events rules opts now

/-- runBatchAggregationWithOptionsReturningCount performs one engine
iteration: read the bucket checkpoint, fetch up to `batch_size` events past
it, return 0 on an empty batch, otherwise fold, flush with the batch's last
`ingest_seq` as the new cursor, and return the number of fetched events. -/
def runBatchAggregationWithOptionsReturningCount (sys : SystemState)
    (rules : List AggregationRule) (opts : BatchJobParameter) (now : Int) :
    Except String (SystemState × Nat) :=
  match retrieveEventsAfterCursor sys.es
      (readCheckpoint sys.pas opts.normalized.bucketLabel)
      opts.normalized.batchSize.toNat with
  | [] => .ok (sys, 0)
  | e :: rest =>
      match flush sys.pas (buildPreAggregates (e :: rest) rules opts.normalized now)
          ((e :: rest).getLast (List.cons_ne_nil e rest)).ingestSeq
          opts.normalized.bucketLabel with
      | .error msg => .error ("flush aggregates: " ++ msg)
      | .ok pas' => .ok ({ sys with pas := pas' }, (e :: rest).length)

/-! ## Projection engine

Source: `internal/projection/service.go`, `internal/projection/rollup.go`,
`internal/projection/types.go`.  The service threads the request's
`tenant_id` into the store calls (`QueryRangeWithCheckpoint`,
`RetrieveScopedEventsAfterCursor`); the cited SQL scopes rows by principal,
event type and occurrence window. -/

structure AggregateQueryRequest where
  tenantID : String
  principalID : String
  rule : String
  start : Int
  endTime : Int
  granularity : String
deriving DecidableEq

structure AggregateValue where
  windowStart : Int
  windowEnd : Int
  value : ℚ
  eventCount : Int
deriving DecidableEq

structure AggregateQueryResponse where
  tenantID : String
  principalID : String
  rule : String
  operator : String
  start : Int
  endTime : Int
  granularity : String
  dataThrough : Int
  stalenessSeconds : Int
  values : List AggregateValue
deriving DecidableEq

/-- QueryError separates `ErrInvalidQuery`-wrapped validation failures
(HTTP 400) from backend failures (HTTP 500). -/
inductive QueryError where
  | invalidQuery (msg : String)
  | backend (msg : String)
deriving DecidableEq

def rawQueryBatchSize : Nat := 5000

/-- maxRawQueryIterations limits the tail scan to prevent timeout/OOM when
the checkpoint is far behind. -/
def maxRawQueryIterations : Nat := 20

/-- normalizeAndValidate defaults an empty granularity to "total" and
rejects an empty tenant, principal or rule, a non-positive range, and an
unknown granularity. -/
def normalizeAndValidate (req : AggregateQueryRequest) :
    Except QueryError AggregateQueryRequest :=
  if req.tenantID = "" then .error (.invalidQuery "tenant_id is required")
  else if req.principalID = "" then .error (.invalidQuery "principal_id is required")
  else if req.rule = "" then .error (.invalidQuery "rule is required")
  else if ¬ req.start < req.endTime then
    .error (.invalidQuery "end time must be after start time")
  else if (if req.granularity = "" then "total" else req.granularity) = "total" ∨
      (if req.granularity = "" then "total" else req.granularity) = "1m" ∨
      (if req.granularity = "" then "total" else req.granularity) = "1h" ∨
      (if req.granularity = "" then "total" else req.granularity) = "1d" then
    .ok { req with granularity :=
      if req.granularity = "" then "total" else req.granularity }
  else .error (.invalidQuery "invalid granularity")

/-- decDigitsToNat? parses a non-empty all-decimal-digit character list. -/
def decDigitsToNat? (cs : List Char) : Option Nat :=
  if cs ≠ [] ∧ cs.all (fun c => 48 ≤ c.toNat ∧ c.toNat ≤ 57) then
    some (cs.foldl (fun n c => n * 10 + (c.toNat - 48)) 0)
  else none

/-- atoi? models `strconv.Atoi`: an optional sign followed by decimal
digits. -/
def atoi? (cs : List Char) : Option Int :=
  match cs with
  | '-' :: rest => (decDigitsToNat? rest).map (fun n => -(n : Int))
  | '+' :: rest => (decDigitsToNat? rest).map (fun n => (n : Int))
  | _ => (decDigitsToNat? cs).map (fun n => (n : Int))

/-- parseBucketSize parses a bucket label into its duration
(`strings.HasSuffix` with a one-character suffix is the last-character
test; `strconv.Atoi` runs on the rest). -/
def parseBucketSize (label : String) : Except String Int :=
  if label = "" then .ok minuteNs
  else if label.data.getLast? = some 'm' then
    match atoi? label.data.dropLast with
    | some n => if n ≤ 0 then .error "invalid minute bucket" else .ok (n * minuteNs)
    | none => .error "invalid minute bucket"
  else if label.data.getLast? = some 'h' then
    match atoi? label.data.dropLast with
    | some n => if n ≤ 0 then .error "invalid hour bucket" else .ok (n * hourNs)
    | none => .error "invalid hour bucket"
  else if label.data.getLast? = some 'd' then
    match atoi? label.data.dropLast with
    | some n => if n ≤ 0 then .error "invalid day bucket" else .ok (n * dayNs)
    | none => .error "invalid day bucket"
  else .error "unsupported bucket size"

/-- scopedMatching is the full set of stored events in one query scope past
a cursor, in log (= ascending `ingest_seq`) order — what an unbounded tail
scan would return. -/
def scopedMatching (es : EventStoreState) (cursor : Int)
    (principalID eventType : String) (startT endT : Int) : List Event :=
  es.log.filter (fun e =>
    cursor < e.ingestSeq ∧ e.principalID = principalID ∧ e.type = eventType ∧
    startT ≤ e.occurredAt ∧ e.occurredAt < endT)

/-- scanScopedLoop is the tail-scan loop with the remaining iteration budget
made explicit (`remaining = maxRawQueryIterations - iterations`): a batch is
fetched; an empty or short batch ends the scan; a full batch advances the
cursor to its last `ingest_seq` and loops; an exhausted budget returns the
backlog error, never a partial result. -/
def scanScopedLoop (es : EventStoreState) (principalID eventType : String)
    (startT endT : Int) : Nat → Int → Except String (List Event)
  | 0, _ =>
      .error "raw event scan exceeded maximum iterations - aggregation may be too far behind"
  | r + 1, cursor =>
      match retrieveScopedEventsAfterCursor es cursor principalID eventType
          startT endT rawQueryBatchSize with
      | [] => .ok []
      | e :: rest =>
          if (e :: rest).length < rawQueryBatchSize then .ok (e :: rest)
          else
            match scanScopedLoop es principalID eventType startT endT r
                ((e :: rest).getLast (List.cons_ne_nil e rest)).ingestSeq with
            | .error msg => .error msg
            | .ok more => .ok ((e :: rest) ++ more)

/-- scanScopedRawEvents runs the capped tail scan
(`Service.scanScopedRawEvents`).  The `tenantID` the service threads through
is accepted; the cited scoped SQL filters by principal, type and occurrence
window. -/
def scanScopedRawEvents (es : EventStoreState) (cursor : Int)
    (tenantID principalID eventType : String) (startT endT : Int) :
    Except String (List Event) :=
  scanScopedLoop es principalID eventType startT endT maxRawQueryIterations cursor

/-- resolveEventUpdatedAt prefers the event's ingestion time when set (the
Go zero time is 0 here), else the service clock. -/
def resolveEventUpdatedAt (evt : Event) (fallback : Int) : Int :=
  if evt.ingestedAt ≠ 0 then evt.ingestedAt else fallback

/-- foldRawEventsIntoBuckets folds raw tail events into per-`window_start`
aggregate states using the same operator reducer as the engine
(`Service.foldRawEventsIntoBuckets`). -/
def foldRawEventsIntoBuckets (events : List Event)
    (buckets : List (Int × AggregateState)) (rule : AggregationRule)
    (reducer : AggregatorImpl) (bucketDuration : Int) (now : Int) :
    List (Int × AggregateState) :=
  events.foldl (fun b evt =>
    match lookupA b (bucketFor evt.occurredAt bucketDuration) with
    | none =>
        setA b (bucketFor evt.occurredAt bucketDuration)
          { operator := rule.operator,
            value := reducer.initial (extractDecimal evt.data rule.field),
            eventCount := 1, lastEventID := evt.id,
            ruleFingerprint := rule.fingerprint,
            windowStart := bucketFor evt.occurredAt bucketDuration,
            updatedAt := resolveEventUpdatedAt evt now }
    | some st =>
        setA b (bucketFor evt.occurredAt bucketDuration)
          { operator := st.operator,
            value := reducer.apply st.value (extractDecimal evt.data rule.field),
            eventCount := st.eventCount + 1, lastEventID := evt.id,
            ruleFingerprint := st.ruleFingerprint,
            windowStart := st.windowStart,
            updatedAt := maxTime st.updatedAt (resolveEventUpdatedAt evt now) })
    buckets

def insertStateByWindowStart (x : AggregateState) :
    List AggregateState → List AggregateState
  | [] => [x]
  | y :: ys =>
      if x.windowStart ≤ y.windowStart then x :: y :: ys
      else y :: insertStateByWindowStart x ys

/-- sortStatesByWindowStart models the ascending `sort.Slice` on
`WindowStart`. -/
def sortStatesByWindowStart (l : List AggregateState) : List AggregateState :=
  l.foldr insertStateByWindowStart []

/-- loadRawEvents scans the scoped raw tail and folds it into sorted
aggregate states (`Service.loadRawEvents`; the per-batch `consume` callback
folds batches in arrival order, which equals folding their concatenation). -/
def loadRawEvents (es : EventStoreState) (req : AggregateQueryRequest)
    (rule : AggregationRule) (bucketSize : String) (checkpoint : Int)
    (now : Int) : Except String (List AggregateState) :=
  match parseBucketSize bucketSize with
  | .error e => .error e
  | .ok bucketDuration =>
      match Operators rule.operator with
      | none => .error ("unknown rule operator: " ++ rule.operator)
      | some reducer =>
          match scanScopedRawEvents es checkpoint req.tenantID req.principalID
              rule.sourceEvent req.start req.endTime with
          | .error e => .error e
          | .ok events =>
              .ok (sortStatesByWindowStart
                ((foldRawEventsIntoBuckets events [] rule reducer bucketDuration
                  now).map (fun kv => kv.2)))

/-- mergeAggregateValue combines a pre-aggregate value with a tail value:
count/sum add; min/max take the extremum; unknown operators keep the
incoming value (`mergeAggregateValue` in `service.go`). -/
def mergeAggregateValue (operator : String) (current incoming : ℚ) : ℚ :=
  if operator = OpCount ∨ operator = OpSum then current + incoming
  else if operator = OpMin then (if incoming < current then incoming else current)
  else if operator = OpMax then (if current < incoming then incoming else current)
  else incoming

/-- mergeAggregateStates merges durable and tail states per `window_start`:
values merge by operator, event counts add, `last_event_id` and
`rule_fingerprint` prefer a non-empty tail value, `updated_at` takes the
max; output ascending by `window_start`. -/
def mergeAggregateStates (base tail : List AggregateState) (operator : String) :
    List AggregateState :=
  sortStatesByWindowStart
    ((tail.foldl (fun m incoming =>
        match lookupA m incoming.windowStart with
        | none => setA m incoming.windowStart incoming
        | some current =>
            setA m incoming.windowStart
              { operator := current.operator,
                value := mergeAggregateValue operator current.value incoming.value,
                eventCount := current.eventCount + incoming.eventCount,
                lastEventID :=
                  if incoming.lastEventID ≠ "" then incoming.lastEventID
                  else current.lastEventID,
                ruleFingerprint :=
                  if incoming.ruleFingerprint ≠ "" then incoming.ruleFingerprint
                  else current.ruleFingerprint,
                windowStart := current.windowStart,
                updatedAt := maxTime current.updatedAt incoming.updatedAt })
      (base.foldl (fun m st => setA m st.windowStart st) [])).map (fun kv => kv.2))

/-! ## Granularity roll-ups (`internal/projection/rollup.go`) -/

/-- totalFoldStep is the loop body shared by `rollupTotal` and the per-group
loops of `rollupToHour`/`rollupToDay`: the accumulator is
(value, event_count, initialized).  count/sum add values; min/max compare
with the initialized guard; any other operator accumulates only the event
count. -/
def totalFoldStep (operator : String) (acc : ℚ × Int × Bool)
    (agg : AggregateState) : ℚ × Int × Bool :=
  if operator = "count" ∨ operator = "sum" then
    (acc.1 + agg.value, acc.2.1 + agg.eventCount, acc.2.2)
  else if operator = "min" then
    (if ¬ acc.2.2 ∨ agg.value < acc.1 then (agg.value, acc.2.1 + agg.eventCount, true)
     else (acc.1, acc.2.1 + agg.eventCount, acc.2.2))
  else if operator = "max" then
    (if ¬ acc.2.2 ∨ acc.1 < agg.value then (agg.value, acc.2.1 + agg.eventCount, true)
     else (acc.1, acc.2.1 + agg.eventCount, acc.2.2))
  else (acc.1, acc.2.1 + agg.eventCount, acc.2.2)

/-- rollupTotal folds all buckets into a single value spanning the request
range: count/sum add, min/max take the global extremum. -/
def rollupTotal (aggregates : List AggregateState) (startT endT : Int) :
    List AggregateValue :=
  match aggregates with
  | [] => [{ windowStart := startT, windowEnd := endT, value := 0, eventCount := 0 }]
  | a :: _ =>
      [{ windowStart := startT, windowEnd := endT,
         value := (aggregates.foldl (totalFoldStep a.operator) (0, 0, false)).1,
         eventCount := (aggregates.foldl (totalFoldStep a.operator) (0, 0, false)).2.1 }]

/-- convertToValues emits one entry per underlying bucket, defaulting a
non-positive bucket duration to one minute. -/
def convertToValues (aggregates : List AggregateState) (bucketDuration : Int) :
    List AggregateValue :=
  aggregates.map (fun agg =>
    { windowStart := agg.windowStart,
      windowEnd := agg.windowStart +
        (if bucketDuration ≤ 0 then minuteNs else bucketDuration),
      value := agg.value, eventCount := agg.eventCount })

/-- gridEntriesAux walks a time grid from `current` (exclusive stop `stop`)
in steps of `step`, emitting one entry per grid point.  The structural fuel
makes the recursion kernel-computable; `(stop - current).toNat` steps always
suffice for a positive step. -/
def gridEntriesAux (step : Int) (mk : Int → AggregateValue) :
    Nat → Int → Int → List AggregateValue
  | 0, _, _ => []
  | n + 1, current, stop =>
      if current < stop then
        mk current :: gridEntriesAux step mk n (current + step) stop
      else []

/-- gridEntries is the bounded-loop pattern of `rollupToHour`,
`rollupToDay`, `emptyHourlyBuckets` and `emptyDailyBuckets`; the `0 < step`
guard only rules out a non-terminating loop (both call sites use a fixed
positive step). -/
def gridEntries (step : Int) (mk : Int → AggregateValue) (current stop : Int) :
    List AggregateValue :=
  if 0 < step then gridEntriesAux step mk (stop - current).toNat current stop
  else []

/-- gridPointsAux lists the grid points themselves (analysis helper). -/
def gridPointsAux (step : Int) : Nat → Int → Int → List Int
  | 0, _, _ => []
  | n + 1, current, stop =>
      if current < stop then current :: gridPointsAux step n (current + step) stop
      else []

/-- emptyHourlyBuckets creates zero-valued hourly entries covering the
range. -/
def emptyHourlyBuckets (startT endT : Int) : List AggregateValue :=
  gridEntries hourNs
    (fun h => { windowStart := h, windowEnd := h + hourNs, value := 0, eventCount := 0 })
    (bucketFor startT hourNs) endT

/-- rollupToHour groups buckets by hour boundary and folds each group by
operator, emitting one entry per hour across the full range (empty hours as
zero entries). -/
def rollupToHour (aggregates : List AggregateState) (startT endT : Int) :
    List AggregateValue :=
  match aggregates with
  | [] => emptyHourlyBuckets startT endT
  | a :: _ =>
      gridEntries hourNs
        (fun h =>
          { windowStart := h, windowEnd := h + hourNs,
            value := ((aggregates.filter
              (fun agg => bucketFor agg.windowStart hourNs = h)).foldl
              (totalFoldStep a.operator) (0, 0, false)).1,
            eventCount := ((aggregates.filter
              (fun agg => bucketFor agg.windowStart hourNs = h)).foldl
              (totalFoldStep a.operator) (0, 0, false)).2.1 })
        (bucketFor startT hourNs) endT

/-- truncateToDay truncates to the UTC day start (for UTC timestamps the
calendar truncation of the source equals truncation to 24h multiples since
the Go zero time, which is midnight). -/
def truncateToDay (t : Int) : Int :=
  dayNs * Int.fdiv t dayNs

/-- dayStopOf computes the exclusive day-grid bound: the truncated end,
plus one day when the end is not day-aligned. -/
def dayStopOf (endT : Int) : Int :=
  if truncateToDay endT < endT then truncateToDay endT + dayNs
  else truncateToDay endT

/-- hourGridPoints: the hour boundaries the hourly roll-up walks (analysis
helper naming the grid of `rollupToHour` / `emptyHourlyBuckets`). -/
def hourGridPoints (startT endT : Int) : List Int :=
  gridPointsAux hourNs (endT - bucketFor startT hourNs).toNat
    (bucketFor startT hourNs) endT

/-- dayGridPoints: the day boundaries the daily roll-up walks (analysis
helper naming the grid of `rollupToDay` / `emptyDailyBuckets`). -/
def dayGridPoints (startT endT : Int) : List Int :=
  gridPointsAux dayNs (dayStopOf endT - truncateToDay startT).toNat
    (truncateToDay startT) (dayStopOf endT)

/-- emptyDailyBuckets creates zero-valued daily entries covering the
range. -/
def emptyDailyBuckets (startT endT : Int) : List AggregateValue :=
  gridEntries dayNs
    (fun d => { windowStart := d, windowEnd := d + dayNs, value := 0, eventCount := 0 })
    (truncateToDay startT) (dayStopOf endT)

/-- rollupToDay groups buckets by day boundary and folds each group by
operator, emitting one entry per day across the full range (empty days as
zero entries). -/
def rollupToDay (aggregates : List AggregateState) (startT endT : Int) :
    List AggregateValue :=
  match aggregates with
  | [] => emptyDailyBuckets startT endT
  | a :: _ =>
      gridEntries dayNs
        (fun d =>
          { windowStart := d, windowEnd := d + dayNs,
            value := ((aggregates.filter
              (fun agg => truncateToDay agg.windowStart = d)).foldl
              (totalFoldStep a.operator) (0, 0, false)).1,
            eventCount := ((aggregates.filter
              (fun agg => truncateToDay agg.windowStart = d)).foldl
              (totalFoldStep a.operator) (0, 0, false)).2.1 })
        (truncateToDay startT) (dayStopOf endT)

/-- rollupForGranularity dispatches on the requested granularity
(`Service.rollupForGranularity`). -/
def rollupForGranularity (aggregates : List AggregateState)
    (granularity : String) (bucketDuration : Int) (startT endT : Int) :
    List AggregateValue :=
  if granularity = "total" then rollupTotal aggregates startT endT
  else if granularity = "1m" then convertToValues aggregates bucketDuration
  else if granularity = "1h" then
    (if bucketDuration = hourNs then convertToValues aggregates bucketDuration
     else rollupToHour aggregates startT endT)
  else if granularity = "1d" then
    (if bucketDuration = dayNs then convertToValues aggregates bucketDuration
     else rollupToDay aggregates startT endT)
  else rollupTotal aggregates startT endT

/-- computeDataThrough: the latest bucket end among merged buckets, clamped
to the requested end; the requested end itself when there is no data. -/
def computeDataThrough (endT : Int) (aggregates : List AggregateState)
    (bucketDuration : Int) : Int :=
  match aggregates with
  | [] => endT
  | _ :: _ =>
      if endT <
          aggregates.foldl (fun dt agg =>
            if dt < agg.windowStart + bucketDuration then
              agg.windowStart + bucketDuration
            else dt) 0 then endT
      else
        aggregates.foldl (fun dt agg =>
          if dt < agg.windowStart + bucketDuration then
            agg.windowStart + bucketDuration
          else dt) 0

/-- rulesMapLookup models the service's rule map (`NewService` inserts the
rules by name in order, later duplicates overwriting earlier ones). -/
def rulesMapLookup (rules : List AggregationRule) (name : String) :
    Option AggregationRule :=
  lookupA (rules.foldl (fun m r => setA m r.name r) []) name

/-- queryAggregates serves one aggregate query (`Service.QueryAggregates`):
validate, look up the rule, read pre-aggregates plus checkpoint from one
snapshot (bucket candidates are always `["1m"]`), scan and fold the raw
tail past the checkpoint, merge, roll up by granularity, and compute
`data_through` (clamped to now) and the staleness in whole seconds. -/
def queryAggregates (sys : SystemState) (rules : List AggregationRule)
    (req : AggregateQueryRequest) (now : Int) :
    Except QueryError AggregateQueryResponse :=
  match normalizeAndValidate req with
  | .error e => .error e
  | .ok req' =>
      match rulesMapLookup rules req'.rule with
      | none => .error (.invalidQuery ("unknown rule: " ++ req'.rule))
      | some rule =>
          match loadRawEvents sys.es req' rule "1m"
              (queryRangeWithCheckpoint sys.pas req'.principalID req'.rule "1m"
                req'.start req'.endTime).2 now with
          | .error msg => .error (.backend ("query raw event tail: " ++ msg))
          | .ok rawAggregates =>
              match parseBucketSize "1m" with
              | .error msg => .error (.backend msg)
              | .ok bucketDuration =>
                  .ok { tenantID := req'.tenantID,
                        principalID := req'.principalID,
                        rule := req'.rule,
                        operator := rule.operator,
                        start := req'.start,
                        endTime := req'.endTime,
                        granularity := req'.granularity,
                        dataThrough := minTime
                          (computeDataThrough req'.endTime
                            (mergeAggregateStates
                              (queryRangeWithCheckpoint sys.pas req'.principalID
                                req'.rule "1m" req'.start req'.endTime).1
                              rawAggregates rule.operator)
                            bucketDuration) now,
                        stalenessSeconds :=
                          if Int.tdiv (now - minTime
                              (computeDataThrough req'.endTime
                                (mergeAggregateStates
                                  (queryRangeWithCheckpoint sys.pas
                                    req'.principalID req'.rule "1m" req'.start
                                    req'.endTime).1
                                  rawAggregates rule.operator)
                                bucketDuration) now) secondNs < 0 then 0
                          else Int.tdiv (now - minTime
                              (computeDataThrough req'.endTime
                                (mergeAggregateStates
                                  (queryRangeWithCheckpoint sys.pas
                                    req'.principalID req'.rule "1m" req'.start
                                    req'.endTime).1
                                  rawAggregates rule.operator)
                                bucketDuration) now) secondNs,
                        values := rollupForGranularity
                          (mergeAggregateStates
                            (queryRangeWithCheckpoint sys.pas req'.principalID
                              req'.rule "1m" req'.start req'.endTime).1
                            rawAggregates rule.operator)
                          req'.granularity bucketDuration req'.start
                          req'.endTime }

/-! ## Concrete sample data (used by witness theorems) -/

/-- Sample stored event (already holding sequence 1). -/
def sampleStoredEvent : Event :=
  { id := "e1", principalID := "p1", type := "api.request",
    schemaVersion := 0, occurredAt := 0, ingestedAt := 0,
    ingestSeq := 1, metadata := [], data := [] }

/-- Sample event store holding `sampleStoredEvent`. -/
def sampleStore : EventStoreState :=
  { nextSeq := 2, log := [sampleStoredEvent] }

/-- Sample incoming event that collides with `sampleStoredEvent` on
`(principal_id, id)`. -/
def sampleDupEvent : Event :=
  { id := "e1", principalID := "p1", type := "api.request",
    schemaVersion := 0, occurredAt := 5, ingestedAt := 6,
    ingestSeq := 0, metadata := [], data := [] }

/-- Sample fresh event (no key collision with `sampleStoredEvent`). -/
def sampleFreshEvent : Event :=
  { id := "e2", principalID := "p2", type := "api.request",
    schemaVersion := 0, occurredAt := 60000000000, ingestedAt := 61000000000,
    ingestSeq := 0, metadata := [], data := [] }

/-- Sample count rule over the `api.request` event type. -/
def sampleCountRule : AggregationRule :=
  { name := "count_api_requests", sourceEvent := "api.request",
    operator := "count", field := "", windowSize := minuteNs,
    fingerprint := "fp-1" }

/-- Sample min rule with a field over the `api.request` event type. -/
def sampleMinRule : AggregationRule :=
  { name := "min_latency", sourceEvent := "api.request",
    operator := "min", field := "latency_ms", windowSize := minuteNs,
    fingerprint := "fp-2" }

/-- Sample merged 1m bucket carrying a `min` value of 4 in the first hour
(used to probe the roll-up composition over a two-hour range). -/
def c8MinAgg : AggregateState :=
  { operator := "min", value := 4, eventCount := 1, lastEventID := "e1",
    ruleFingerprint := "fp-2", windowStart := 0, updatedAt := 0 }

/-- Aggregate key `sampleStoredEvent` produces under `sampleCountRule` with
default options (`partitionFor "p1" = 122`). -/
def sampleCountKey : AggregateKey :=
  { partitionID := 122, principalID := "p1",
    ruleName := "count_api_requests", bucketSize := "1m", windowStart := 0 }

/-- Initial system for the write-then-read pipeline probe: one stored event,
no pre-aggregates, no checkpoints. -/
def c1Sys0 : SystemState := { es := sampleStore, pas := initPreAggStore }

/-- System state after one batch-aggregation iteration over `c1Sys0` (folds
`sampleStoredEvent` into the durable pre-aggregates and advances the "1m"
checkpoint to its sequence). -/
def c1SysAfter : SystemState :=
  match runBatchAggregationWithOptionsReturningCount c1Sys0 [sampleCountRule]
      DefaultBatchJobOptions 0 with
  | .ok (s, _) => s
  | .error _ => c1Sys0

/-- Query whose scope covers `sampleStoredEvent` (its principal, its rule's
source type, a range containing its occurrence time). -/
def c1Req : AggregateQueryRequest :=
  { tenantID := "tenant-1", principalID := "p1",
    rule := "count_api_requests", start := 0, endTime := 60000000000,
    granularity := "total" }

end Aevon

namespace Aevon

/-! ## Event store theorems (claims C3 and C4) -/

theorem saveEvent_preserves_wf (s : EventStoreState) (e : Event)
    (h : EventStoreWF s) : EventStoreWF (saveEvent s e).2 := by
  unfold saveEvent
  split
  · exact h
  · dsimp only
    refine ⟨?_, ?_⟩
    · refine List.pairwise_append.2 ⟨h.1, List.pairwise_singleton _ _, ?_⟩
      intro a ha b hb
      simp only [List.mem_singleton] at hb
      subst hb
      exact h.2 a ha
    · intro x hx
      rcases List.mem_append.1 hx with hx | hx
      · exact lt_trans (h.2 x hx) (lt_add_one _)
      · simp only [List.mem_singleton] at hx
        subst hx
        exact lt_add_one _

theorem saveEvent_second_call_duplicate (s : EventStoreState) (e : Event) :
    saveEvent (saveEvent s e).2 e = (SaveOutcome.duplicate, (saveEvent s e).2) := by
  by_cases h : ∃ x ∈ s.log, x.principalID = e.principalID ∧ x.id = e.id
  · unfold saveEvent
    simp only [if_pos h]
  · have h2 : (saveEvent s e).2 =
        { nextSeq := s.nextSeq + 1,
          log := s.log ++ [{ e with ingestSeq := s.nextSeq }] } := by
      unfold saveEvent
      simp only [if_neg h]
    rw [h2]
    unfold saveEvent
    rw [if_pos]
    exact ⟨{ e with ingestSeq := s.nextSeq }, by simp, rfl, rfl⟩

/-- C3: appending an event whose `(principal_id, id)` key already exists in
the log returns the distinguished Duplicate outcome, leaves the log (and the
sequence counter) unchanged, and assigns no sequence; moreover a second
append of the same event is always Duplicate with the store unchanged, and
the store performs no internal retry (the duplicate outcome is final: the
resulting state rejects the same key again). -/
theorem saveEvent_duplicate_is_noop (s : EventStoreState) (e : Event)
    (h : ∃ x ∈ s.log, x.principalID = e.principalID ∧ x.id = e.id) :
    saveEvent s e = (SaveOutcome.duplicate, s) ∧
    saveEvent (saveEvent s e).2 e = (SaveOutcome.duplicate, (saveEvent s e).2) := by
  refine ⟨?_, saveEvent_second_call_duplicate s e⟩
  unfold saveEvent
  simp only [if_pos h]

theorem saveEvent_duplicate_is_noop_witness :
    saveEvent sampleStore sampleDupEvent = (SaveOutcome.duplicate, sampleStore) ∧
    saveEvent (saveEvent sampleStore sampleDupEvent).2 sampleDupEvent =
      (SaveOutcome.duplicate, (saveEvent sampleStore sampleDupEvent).2) :=
  saveEvent_duplicate_is_noop sampleStore sampleDupEvent (by decide)

theorem saveEvent_saved_shape (s s' : EventStoreState) (e : Event) (q : Int)
    (h : saveEvent s e = (SaveOutcome.saved q, s')) :
    q = s.nextSeq ∧ s'.nextSeq = s.nextSeq + 1 := by
  unfold saveEvent at h
  split at h
  · exact absurd (congrArg Prod.fst h) (by simp)
  · have hq := congrArg Prod.fst h
    have hs := congrArg Prod.snd h
    simp only [] at hq hs
    cases hq
    constructor
    · rfl
    · rw [← hs]

/-- C4: sequence assignment is a strict total order — two consecutive
successful appends A then B satisfy `A.ingest_seq < B.ingest_seq` — and
`ReadAfterCursor(cursor, limit)` returns up to `limit` events, exactly those
with `ingest_seq > cursor`, in ascending `ingest_seq` order: it is the
`limit`-prefix of the matching events, it is strictly sorted, every returned
event is a stored event past the cursor, a short batch contains all matching
events, and any matching event not returned has a larger sequence than every
returned event (so advancing the cursor in order misses nothing). -/
theorem ingest_seq_strictly_monotone_and_cursor_read (s s1 s2 : EventStoreState)
    (e1 e2 : Event) (q1 q2 cursor : Int) (limit : Nat)
    (hwf : EventStoreWF s)
    (h1 : saveEvent s e1 = (SaveOutcome.saved q1, s1))
    (h2 : saveEvent s1 e2 = (SaveOutcome.saved q2, s2)) :
    q1 < q2 ∧
    retrieveEventsAfterCursor s cursor limit =
      (s.log.filter (fun ev => cursor < ev.ingestSeq)).take limit ∧
    (retrieveEventsAfterCursor s cursor limit).length ≤ limit ∧
    (retrieveEventsAfterCursor s cursor limit).Pairwise
      (fun a b => a.ingestSeq < b.ingestSeq) ∧
    (∀ ev ∈ retrieveEventsAfterCursor s cursor limit,
      ev ∈ s.log ∧ cursor < ev.ingestSeq) ∧
    ((retrieveEventsAfterCursor s cursor limit).length < limit →
      ∀ ev ∈ s.log, cursor < ev.ingestSeq →
        ev ∈ retrieveEventsAfterCursor s cursor limit) ∧
    (∀ ev ∈ s.log, cursor < ev.ingestSeq →
      ev ∉ retrieveEventsAfterCursor s cursor limit →
      ∀ r ∈ retrieveEventsAfterCursor s cursor limit, r.ingestSeq < ev.ingestSeq) := by
  obtain ⟨hq1, hn1⟩ := saveEvent_saved_shape s s1 e1 q1 h1
  obtain ⟨hq2, _⟩ := saveEvent_saved_shape s1 s2 e2 q2 h2
  have hmono : q1 < q2 := by rw [hq1, hq2, hn1]; omega
  have hsubl : List.Sublist (retrieveEventsAfterCursor s cursor limit) s.log := by
    unfold retrieveEventsAfterCursor
    exact (List.take_sublist _ _).trans (List.filter_sublist _)
  have hpair : (retrieveEventsAfterCursor s cursor limit).Pairwise
      (fun a b => a.ingestSeq < b.ingestSeq) := hwf.1.sublist hsubl
  have hmem : ∀ ev ∈ retrieveEventsAfterCursor s cursor limit,
      ev ∈ s.log ∧ cursor < ev.ingestSeq := by
    intro ev hev
    unfold retrieveEventsAfterCursor at hev
    have hf : ev ∈ s.log.filter (fun ev => cursor < ev.ingestSeq) :=
      (List.take_sublist _ _).subset hev
    rw [List.mem_filter] at hf
    exact ⟨hf.1, by simpa using hf.2⟩
  refine ⟨hmono, rfl, ?_, hpair, hmem, ?_, ?_⟩
  · unfold retrieveEventsAfterCursor
    exact List.length_take_le _ _
  · intro hshort ev hev hc
    unfold retrieveEventsAfterCursor at hshort ⊢
    have hlen : (s.log.filter (fun ev => cursor < ev.ingestSeq)).length < limit := by
      rw [List.length_take] at hshort
      omega
    rw [List.take_of_length_le (le_of_lt hlen)]
    rw [List.mem_filter]
    exact ⟨hev, by simpa using hc⟩
  · intro ev hev hc hnot r hr
    have hfe : ev ∈ s.log.filter (fun ev => cursor < ev.ingestSeq) := by
      rw [List.mem_filter]
      exact ⟨hev, by simpa using hc⟩
    have hfp : (s.log.filter (fun ev => cursor < ev.ingestSeq)).Pairwise
        (fun a b => a.ingestSeq < b.ingestSeq) :=
      hwf.1.sublist (List.filter_sublist _)
    have hsplit := List.take_append_drop limit
      (s.log.filter (fun ev => cursor < ev.ingestSeq))
    rw [← hsplit] at hfp hfe
    rw [List.pairwise_append] at hfp
    rcases List.mem_append.1 hfe with hin | hin
    · exact absurd hin hnot
    · exact hfp.2.2 r hr ev hin

/-- C10: the projection query carries a tenant dimension: a request with an
empty `tenant_id` (and likewise an empty `principal_id` or `rule`) is
rejected with an InvalidQuery error before any store is touched — the
result is the same error for every store state, rule set and clock — so a
caller following the principal-only model cannot obtain a successful
response. -/
theorem query_rejects_empty_tenant (sys sys' : SystemState)
    (rules rules' : List AggregationRule) (req : AggregateQueryRequest)
    (now now' : Int) (h : req.tenantID = "") :
    queryAggregates sys rules req now =
      .error (.invalidQuery "tenant_id is required") ∧
    queryAggregates sys rules req now = queryAggregates sys' rules' req now' ∧
    (∀ req2 : AggregateQueryRequest, req2.principalID = "" →
      ∃ msg, normalizeAndValidate req2 = .error (.invalidQuery msg)) ∧
    (∀ req3 : AggregateQueryRequest, req3.rule = "" →
      ∃ msg, normalizeAndValidate req3 = .error (.invalidQuery msg)) := by
  have hn : normalizeAndValidate req = .error (.invalidQuery "tenant_id is required") := by
    unfold normalizeAndValidate
    rw [if_pos h]
  have hq : queryAggregates sys rules req now =
      .error (.invalidQuery "tenant_id is required") := by
    unfold queryAggregates
    rw [hn]
  have hq' : queryAggregates sys' rules' req now' =
      .error (.invalidQuery "tenant_id is required") := by
    unfold queryAggregates
    rw [hn]
  refine ⟨hq, by rw [hq, hq'], ?_, ?_⟩
  · intro req2 h2
    by_cases ht : req2.tenantID = ""
    · exact ⟨"tenant_id is required", by unfold normalizeAndValidate; rw [if_pos ht]⟩
    · refine ⟨"principal_id is required", ?_⟩
      unfold normalizeAndValidate
      rw [if_neg ht, if_pos h2]
  · intro req3 h3
    by_cases ht : req3.tenantID = ""
    · exact ⟨"tenant_id is required", by unfold normalizeAndValidate; rw [if_pos ht]⟩
    · by_cases hp : req3.principalID = ""
      · refine ⟨"principal_id is required", ?_⟩
        unfold normalizeAndValidate
        rw [if_neg ht, if_pos hp]
      · refine ⟨"rule is required", ?_⟩
        unfold normalizeAndValidate
        rw [if_neg ht, if_neg hp, if_pos h3]

theorem query_rejects_empty_tenant_witness :
    queryAggregates { es := initEventStore, pas := initPreAggStore }
      [sampleCountRule]
      { tenantID := "", principalID := "p1", rule := "count_api_requests",
        start := 0, endTime := 60000000000, granularity := "" } 0 =
      .error (.invalidQuery "tenant_id is required") :=
  (query_rejects_empty_tenant
    { es := initEventStore, pas := initPreAggStore }
    { es := initEventStore, pas := initPreAggStore }
    [sampleCountRule] []
    { tenantID := "", principalID := "p1", rule := "count_api_requests",
      start := 0, endTime := 60000000000, granularity := "" } 0 5
    (by decide)).1

theorem ingest_seq_strictly_monotone_and_cursor_read_witness :
    (saveEvent sampleStore sampleFreshEvent).1 =
      SaveOutcome.saved 2 ∧
    (2 : Int) < 3 := by
  have h := ingest_seq_strictly_monotone_and_cursor_read sampleStore
    (saveEvent sampleStore sampleFreshEvent).2
    (saveEvent (saveEvent sampleStore sampleFreshEvent).2
      { sampleFreshEvent with id := "e3" }).2
    sampleFreshEvent { sampleFreshEvent with id := "e3" } 2 3 0 5
    (by decide) (by decide) (by decide)
  exact ⟨by decide, h.1⟩

/-! ## Association-list (Go map) lemmas -/

theorem lookupA_setA_self {κ σ : Type} [DecidableEq κ]
    (m : List (κ × σ)) (k : κ) (v : σ) : lookupA (setA m k v) k = some v := by
  induction m with
  | nil => simp [setA, lookupA]
  | cons hd tl ih =>
    obtain ⟨k', v'⟩ := hd
    by_cases h : k' = k
    · simp [setA, lookupA, h]
    · simp only [setA, if_neg h]
      simpa [lookupA, List.find?, h] using ih

theorem lookupA_setA_ne {κ σ : Type} [DecidableEq κ]
    (m : List (κ × σ)) (k k' : κ) (v : σ) (h : k' ≠ k) :
    lookupA (setA m k' v) k = lookupA m k := by
  induction m with
  | nil => simp [setA, lookupA, h]
  | cons hd tl ih =>
    obtain ⟨k'', v''⟩ := hd
    by_cases h2 : k'' = k'
    · subst h2
      simp [setA, lookupA, List.find?, h]
    · simp only [setA, if_neg h2]
      by_cases h3 : k'' = k
      · simp [lookupA, List.find?, h3]
      · simp only [lookupA, List.find?] at ih ⊢
        simpa [h3] using ih

/-- MapKeysNodup: the association list has pairwise-distinct keys, the
invariant every Go map satisfies. -/
def MapKeysNodup {κ σ : Type} (m : List (κ × σ)) : Prop :=
  (m.map (fun p => p.1)).Nodup

theorem mem_keys_setA {κ σ : Type} [DecidableEq κ]
    (m : List (κ × σ)) (k a : κ) (v : σ)
    (h : a ∈ (setA m k v).map (fun p => p.1)) :
    a ∈ m.map (fun p => p.1) ∨ a = k := by
  induction m with
  | nil =>
    simp [setA] at h
    exact Or.inr h
  | cons hd tl ih =>
    obtain ⟨k', v'⟩ := hd
    by_cases he : k' = k
    · subst he
      simp only [setA, if_pos, List.map_cons, List.mem_cons] at h ⊢
      tauto
    · simp only [setA, if_neg he, List.map_cons, List.mem_cons] at h ⊢
      rcases h with h | h
      · exact Or.inl (Or.inl h)
      · rcases ih h with h2 | h2
        · exact Or.inl (Or.inr h2)
        · exact Or.inr h2

theorem mapKeysNodup_setA {κ σ : Type} [DecidableEq κ]
    (m : List (κ × σ)) (k : κ) (v : σ) (h : MapKeysNodup m) :
    MapKeysNodup (setA m k v) := by
  induction m with
  | nil => simp [setA, MapKeysNodup]
  | cons hd tl ih =>
    obtain ⟨k', v'⟩ := hd
    unfold MapKeysNodup at h
    simp only [List.map_cons, List.nodup_cons] at h
    by_cases he : k' = k
    · subst he
      simp only [setA, if_pos, MapKeysNodup, List.map_cons, List.nodup_cons]
      exact h
    · have htl := ih h.2
      simp only [setA, if_neg he, MapKeysNodup, List.map_cons, List.nodup_cons]
      refine ⟨?_, htl⟩
      intro hmem
      rcases mem_keys_setA tl k k' v hmem with h2 | h2
      · exact h.1 h2
      · exact he h2

/-! ## Fold characterization: the aggregate map as a per-key fold of the
contribution list -/

theorem applyRuleToEvent_lookup_match (target : List (AggregateKey × AggregateState))
    (evt : Event) (cr : CompiledRule) (opts : BatchJobParameter) (now : Int)
    (k : AggregateKey) (hk : mkAggKey evt cr opts = k) :
    lookupA (applyRuleToEvent target evt cr opts now) k =
      some (stepKeyState (lookupA target k) (evt, cr) now) := by
  subst hk
  unfold applyRuleToEvent stepKeyState
  cases h : lookupA target (mkAggKey evt cr opts) with
  | none => simp [h, lookupA_setA_self]
  | some st => simp [h, lookupA_setA_self]

theorem applyRuleToEvent_lookup_other (target : List (AggregateKey × AggregateState))
    (evt : Event) (cr : CompiledRule) (opts : BatchJobParameter) (now : Int)
    (k : AggregateKey) (hk : mkAggKey evt cr opts ≠ k) :
    lookupA (applyRuleToEvent target evt cr opts now) k = lookupA target k := by
  unfold applyRuleToEvent
  cases h : lookupA target (mkAggKey evt cr opts) with
  | none => simp only [h]; exact lookupA_setA_ne _ _ _ _ hk
  | some st => simp only [h]; exact lookupA_setA_ne _ _ _ _ hk

theorem foldRules_lookup (crs : List CompiledRule)
    (target : List (AggregateKey × AggregateState)) (evt : Event)
    (opts : BatchJobParameter) (now : Int) (k : AggregateKey) :
    lookupA (crs.foldl (fun t cr => applyRuleToEvent t evt cr opts now) target) k =
      foldKeyState (lookupA target k)
        ((crs.filter (fun cr => mkAggKey evt cr opts = k)).map (fun cr => (evt, cr)))
        now := by
  induction crs generalizing target with
  | nil => rfl
  | cons cr crs ih =>
    by_cases hk : mkAggKey evt cr opts = k
    · simp only [List.foldl_cons]
      rw [ih]
      rw [applyRuleToEvent_lookup_match target evt cr opts now k hk]
      simp [List.filter_cons, hk, foldKeyState]
    · simp only [List.foldl_cons, List.filter_cons]
      rw [ih]
      rw [applyRuleToEvent_lookup_other target evt cr opts now k hk]
      simp [hk]

theorem processEventRules_lookup (target : List (AggregateKey × AggregateState))
    (evt : Event) (rules : List AggregationRule) (opts : BatchJobParameter)
    (now : Int) (k : AggregateKey) :
    lookupA (processEventRules target evt rules opts now) k =
      foldKeyState (lookupA target k)
        (((toCompiledRuleMap rules evt.type).filter
            (fun cr => mkAggKey evt cr opts = k)).map (fun cr => (evt, cr)))
        now :=
  foldRules_lookup _ target evt opts now k

theorem foldKeyState_append (cur : Option AggregateState)
    (l1 l2 : List (Event × CompiledRule)) (now : Int) :
    foldKeyState cur (l1 ++ l2) now = foldKeyState (foldKeyState cur l1 now) l2 now := by
  unfold foldKeyState
  rw [List.foldl_append]

theorem mergeGroupAggregates_lookup (target : List (AggregateKey × AggregateState))
    (events : List Event) (rules : List AggregationRule)
    (opts : BatchJobParameter) (now : Int) (k : AggregateKey) :
    lookupA (mergeGroupAggregates target events rules opts now) k =
      foldKeyState (lookupA target k) (contribList events rules opts k) now := by
  induction events generalizing target with
  | nil => rfl
  | cons evt events ih =>
    unfold mergeGroupAggregates contribList
    simp only [List.foldl_cons, List.flatMap_cons]
    rw [foldKeyState_append]
    unfold mergeGroupAggregates contribList at ih
    rw [ih (processEventRules target evt rules opts now)]
    rw [processEventRules_lookup]

theorem mem_toCompiledRuleMap (rules : List AggregationRule) (t : String)
    (cr : CompiledRule) (h : cr ∈ toCompiledRuleMap rules t) :
    cr.rule ∈ rules ∧ cr.rule.sourceEvent = t ∧
    Operators cr.rule.operator = some cr.agg := by
  unfold toCompiledRuleMap at h
  rcases List.mem_filterMap.1 h with ⟨r, hr, hcr⟩
  by_cases hsrc : r.sourceEvent = t
  · rw [if_pos hsrc] at hcr
    cases hop : Operators r.operator with
    | none => rw [hop] at hcr; exact absurd hcr (by simp)
    | some a =>
      rw [hop] at hcr
      simp only [Option.map_some'] at hcr
      cases hcr
      exact ⟨hr, hsrc, hop⟩
  · rw [if_neg hsrc] at hcr
    simp at hcr

theorem mem_contribList (events : List Event) (rules : List AggregationRule)
    (opts : BatchJobParameter) (k : AggregateKey) (p : Event × CompiledRule)
    (h : p ∈ contribList events rules opts k) :
    p.1 ∈ events ∧ p.2 ∈ toCompiledRuleMap rules p.1.type ∧
    mkAggKey p.1 p.2 opts = k := by
  unfold contribList at h
  rcases List.mem_flatMap.1 h with ⟨e, he, hp⟩
  rcases List.mem_map.1 hp with ⟨cr, hcr, hpe⟩
  rcases List.mem_filter.1 hcr with ⟨hcr1, hcr2⟩
  cases hpe
  exact ⟨he, hcr1, by simpa using hcr2⟩

theorem contribList_same_rule (events : List Event) (rules : List AggregationRule)
    (opts : BatchJobParameter) (k : AggregateKey)
    (huniq : ∀ r1 ∈ rules, ∀ r2 ∈ rules, r1.name = r2.name → r1 = r2)
    (p q : Event × CompiledRule)
    (hp : p ∈ contribList events rules opts k)
    (hq : q ∈ contribList events rules opts k) :
    p.2.rule = q.2.rule ∧ p.2.agg = q.2.agg := by
  obtain ⟨_, hpr, hpk⟩ := mem_contribList events rules opts k p hp
  obtain ⟨_, hqr, hqk⟩ := mem_contribList events rules opts k q hq
  obtain ⟨hpmem, _, hpop⟩ := mem_toCompiledRuleMap rules p.1.type p.2 hpr
  obtain ⟨hqmem, _, hqop⟩ := mem_toCompiledRuleMap rules q.1.type q.2 hqr
  have hname : p.2.rule.name = q.2.rule.name := by
    have h1 : p.2.rule.name = k.ruleName := by rw [← hpk]; rfl
    have h2 : q.2.rule.name = k.ruleName := by rw [← hqk]; rfl
    rw [h1, h2]
  have hrule : p.2.rule = q.2.rule := huniq _ hpmem _ hqmem hname
  refine ⟨hrule, ?_⟩
  rw [hrule] at hpop
  rw [hpop] at hqop
  exact Option.some.inj hqop

theorem foldKeyState_some_of_some (l : List (Event × CompiledRule)) (now : Int)
    (st0 : AggregateState) :
    foldKeyState (some st0) l now =
      some (l.foldl (fun c p => stepKeyState (some c) p now) st0) := by
  induction l generalizing st0 with
  | nil => rfl
  | cons p l ih =>
    unfold foldKeyState at ih ⊢
    simp only [List.foldl_cons]
    exact ih _

theorem foldSteps_components (l : List (Event × CompiledRule)) (now : Int)
    (st0 : AggregateState) (A : AggregatorImpl)
    (hall : ∀ p ∈ l, p.2.agg = A) :
    (l.foldl (fun c p => stepKeyState (some c) p now) st0).value =
      (l.map (fun p => extractDecimal p.1.data p.2.rule.field)).foldl
        A.apply st0.value ∧
    (l.foldl (fun c p => stepKeyState (some c) p now) st0).eventCount =
      st0.eventCount + l.length ∧
    (l.foldl (fun c p => stepKeyState (some c) p now) st0).operator =
      st0.operator := by
  induction l generalizing st0 with
  | nil => simp
  | cons p l ih =>
    have hA : p.2.agg = A := hall p (List.mem_cons_self _ _)
    have hrest : ∀ q ∈ l, q.2.agg = A := fun q hq => hall q (List.mem_cons_of_mem _ hq)
    simp only [List.foldl_cons, List.map_cons]
    have hstep : stepKeyState (some st0) p now =
        { operator := st0.operator,
          value := A.apply st0.value (extractDecimal p.1.data p.2.rule.field),
          eventCount := st0.eventCount + 1, lastEventID := p.1.id,
          ruleFingerprint := st0.ruleFingerprint, windowStart := st0.windowStart,
          updatedAt := now } := by
      unfold stepKeyState
      rw [hA]
    rw [hstep]
    obtain ⟨h1, h2, h3⟩ := ih _ hrest
    refine ⟨h1, ?_, h3⟩
    rw [h2]
    simp only [List.length_cons]
    omega

/-! ## Per-operator reductions -/

theorem countAgg_initial (x : ℚ) : countAgg.initial x = 1 := rfl

theorem countAgg_apply (c x : ℚ) : countAgg.apply c x = c + 1 := rfl

theorem sumAgg_initial (x : ℚ) : sumAgg.initial x = x := rfl

theorem sumAgg_apply (c x : ℚ) : sumAgg.apply c x = c + x := rfl

theorem minAgg_initial (x : ℚ) : minAgg.initial x = x := rfl

theorem minAgg_apply (c x : ℚ) : minAgg.apply c x = min c x := by
  simp only [minAgg]
  rcases le_or_lt c x with h | h
  · rw [if_neg (not_lt.2 h), min_eq_left h]
  · rw [if_pos h, min_eq_right (le_of_lt h)]

theorem maxAgg_initial (x : ℚ) : maxAgg.initial x = x := rfl

theorem maxAgg_apply (c x : ℚ) : maxAgg.apply c x = max c x := by
  simp only [maxAgg]
  rcases le_or_lt x c with h | h
  · rw [if_neg (not_lt.2 h), max_eq_left h]
  · rw [if_pos h, max_eq_right (le_of_lt h)]

theorem foldl_countAgg (vals : List ℚ) (v0 : ℚ) :
    vals.foldl countAgg.apply v0 = v0 + vals.length := by
  induction vals generalizing v0 with
  | nil => simp
  | cons x vals ih =>
    simp only [List.foldl_cons, countAgg_apply, List.length_cons, ih]
    push_cast
    ring

theorem foldl_sumAgg (vals : List ℚ) (v0 : ℚ) :
    vals.foldl sumAgg.apply v0 = v0 + vals.sum := by
  induction vals generalizing v0 with
  | nil => simp
  | cons x vals ih =>
    simp only [List.foldl_cons, sumAgg_apply, List.sum_cons, ih]
    ring

theorem foldl_min_mem (vals : List ℚ) (v0 : ℚ) :
    vals.foldl min v0 ∈ v0 :: vals := by
  induction vals generalizing v0 with
  | nil => simp
  | cons x vals ih =>
    simp only [List.foldl_cons]
    rcases min_choice v0 x with hc | hc
    · rw [hc]
      rcases List.mem_cons.1 (ih v0) with h | h
      · simp [h]
      · simp [List.mem_cons_of_mem, h]
    · rw [hc]
      rcases List.mem_cons.1 (ih x) with h | h
      · simp [h]
      · simp [List.mem_cons_of_mem, h]

theorem foldl_min_le (vals : List ℚ) (v0 : ℚ) :
    ∀ x ∈ v0 :: vals, vals.foldl min v0 ≤ x := by
  induction vals generalizing v0 with
  | nil => simp
  | cons y vals ih =>
    intro x hx
    simp only [List.foldl_cons]
    have hiy := ih (min v0 y)
    rcases List.mem_cons.1 hx with h | h
    · subst h
      exact le_trans (hiy _ (List.mem_cons_self _ _)) (min_le_left _ _)
    · rcases List.mem_cons.1 h with h2 | h2
      · subst h2
        exact le_trans (hiy _ (List.mem_cons_self _ _)) (min_le_right _ _)
      · exact hiy x (List.mem_cons_of_mem _ h2)

theorem foldl_max_mem (vals : List ℚ) (v0 : ℚ) :
    vals.foldl max v0 ∈ v0 :: vals := by
  induction vals generalizing v0 with
  | nil => simp
  | cons x vals ih =>
    simp only [List.foldl_cons]
    rcases max_choice v0 x with hc | hc
    · rw [hc]
      rcases List.mem_cons.1 (ih v0) with h | h
      · simp [h]
      · simp [List.mem_cons_of_mem, h]
    · rw [hc]
      rcases List.mem_cons.1 (ih x) with h | h
      · simp [h]
      · simp [List.mem_cons_of_mem, h]

theorem foldl_max_ge (vals : List ℚ) (v0 : ℚ) :
    ∀ x ∈ v0 :: vals, x ≤ vals.foldl max v0 := by
  induction vals generalizing v0 with
  | nil => simp
  | cons y vals ih =>
    intro x hx
    simp only [List.foldl_cons]
    have hiy := ih (max v0 y)
    rcases List.mem_cons.1 hx with h | h
    · subst h
      exact le_trans (le_max_left _ _) (hiy _ (List.mem_cons_self _ _))
    · rcases List.mem_cons.1 h with h2 | h2
      · subst h2
        exact le_trans (le_max_right _ _) (hiy _ (List.mem_cons_self _ _))
      · exact hiy x (List.mem_cons_of_mem _ h2)

/-- C5: for every aggregate key produced by folding a list of events under a
rule set with unique rule names, the state's `event_count` is the number of
contributions and its `value` is the reduction of its operator over the
multiset of contributing extracted field values: the count of contributions
for `count`, their sum for `sum`, and the least/greatest contributed value
for `min`/`max`.  The reducers are exactly as specified — count's `Initial`
is 1 and `Apply` is `cur + 1` (incoming ignored), sum's are `x` and
`cur + x`, min/max's are `x` and the lesser/greater of `cur` and `x` — and
the extracted value is 0 whenever the field is empty, missing, or not a
recognized numeric. -/
theorem aggregate_value_is_operator_reduction
    (events : List Event) (rules : List AggregationRule)
    (opts : BatchJobParameter) (now : Int)
    (huniq : ∀ r1 ∈ rules, ∀ r2 ∈ rules, r1.name = r2.name → r1 = r2)
    (k : AggregateKey) (st : AggregateState)
    (hlook : lookupA (mergeGroupAggregates [] events rules opts now) k = some st) :
    st.eventCount = ((contribVals events rules opts k).length : Int) ∧
    (st.operator = OpCount →
      st.value = ((contribVals events rules opts k).length : ℚ)) ∧
    (st.operator = OpSum → st.value = (contribVals events rules opts k).sum) ∧
    (st.operator = OpMin → st.value ∈ contribVals events rules opts k ∧
      ∀ v ∈ contribVals events rules opts k, st.value ≤ v) ∧
    (st.operator = OpMax → st.value ∈ contribVals events rules opts k ∧
      ∀ v ∈ contribVals events rules opts k, v ≤ st.value) ∧
    (∀ x : ℚ, countAgg.initial x = 1) ∧
    (∀ c x : ℚ, countAgg.apply c x = c + 1) ∧
    (∀ x : ℚ, sumAgg.initial x = x) ∧
    (∀ c x : ℚ, sumAgg.apply c x = c + x) ∧
    (∀ x : ℚ, minAgg.initial x = x) ∧
    (∀ c x : ℚ, minAgg.apply c x = min c x) ∧
    (∀ x : ℚ, maxAgg.initial x = x) ∧
    (∀ c x : ℚ, maxAgg.apply c x = max c x) ∧
    (∀ data, extractDecimal data "" = 0) ∧
    (∀ data f, lookupA data f = none → extractDecimal data f = 0) ∧
    (∀ data f, lookupA data f = some (GoVal.str none) →
      extractDecimal data f = 0) ∧
    (∀ data f, lookupA data f = some GoVal.other → extractDecimal data f = 0) := by
  have hchar : foldKeyState none (contribList events rules opts k) now = some st :=
    (mergeGroupAggregates_lookup [] events rules opts now k).symm.trans hlook
  cases hcl : contribList events rules opts k with
  | nil =>
    rw [hcl] at hchar
    exact absurd hchar (by simp [foldKeyState])
  | cons p l' =>
    rw [hcl] at hchar
    have hpmem : p ∈ contribList events rules opts k := by
      rw [hcl]; exact List.mem_cons_self _ _
    have hallA : ∀ q ∈ l', q.2.agg = p.2.agg := by
      intro q hq
      have hqmem : q ∈ contribList events rules opts k := by
        rw [hcl]; exact List.mem_cons_of_mem _ hq
      exact (contribList_same_rule events rules opts k huniq q p hqmem hpmem).2
    have hfold : foldKeyState none (p :: l') now =
        some (l'.foldl (fun c q => stepKeyState (some c) q now)
          (stepKeyState none p now)) := by
      unfold foldKeyState
      simp only [List.foldl_cons]
      exact foldKeyState_some_of_some l' now _
    rw [hfold] at hchar
    have hst : st = l'.foldl (fun c q => stepKeyState (some c) q now)
        (stepKeyState none p now) := (Option.some.inj hchar).symm
    have hcomp := foldSteps_components l' now (stepKeyState none p now) p.2.agg hallA
    obtain ⟨hval, hcnt, hop⟩ := hcomp
    rw [← hst] at hval hcnt hop
    have hvals' : ∀ q ∈ l', extractDecimal q.1.data q.2.rule.field =
        extractDecimal q.1.data p.2.rule.field := by
      intro q hq
      have hqmem : q ∈ contribList events rules opts k := by
        rw [hcl]; exact List.mem_cons_of_mem _ hq
      rw [(contribList_same_rule events rules opts k huniq q p hqmem hpmem).1]
    have hv : contribVals events rules opts k =
        extractDecimal p.1.data p.2.rule.field ::
          l'.map (fun q => extractDecimal q.1.data q.2.rule.field) := by
      unfold contribVals
      rw [hcl]
      rfl
    have hst0val : (stepKeyState none p now).value =
        p.2.agg.initial (extractDecimal p.1.data p.2.rule.field) := rfl
    have hst0cnt : (stepKeyState none p now).eventCount = 1 := rfl
    have hst0op : (stepKeyState none p now).operator = p.2.rule.operator := rfl
    obtain ⟨hpev, hpcr, hpk⟩ := mem_contribList events rules opts k p hpmem
    obtain ⟨hpr_mem, hpsrc, hpop⟩ := mem_toCompiledRuleMap rules p.1.type p.2 hpcr
    have hopeq : st.operator = p.2.rule.operator := by rw [hop, hst0op]
    refine ⟨?_, ?_, ?_, ?_, ?_, countAgg_initial, countAgg_apply, sumAgg_initial,
      sumAgg_apply, minAgg_initial, minAgg_apply, maxAgg_initial, maxAgg_apply,
      ?_, ?_, ?_, ?_⟩
    · rw [hcnt, hst0cnt, hv]
      simp only [List.length_cons, List.length_map]
      omega
    · intro hc
      have hoc : p.2.rule.operator = OpCount := by rw [← hopeq, hc]
      have hagg : p.2.agg = countAgg := by
        rw [hoc] at hpop
        have : Operators OpCount = some countAgg := rfl
        rw [this] at hpop
        exact (Option.some.inj hpop).symm
      rw [hval, hst0val, hagg, hv]
      rw [foldl_countAgg]
      simp only [countAgg, List.length_cons, List.length_map]
      push_cast
      ring
    · intro hc
      have hoc : p.2.rule.operator = OpSum := by rw [← hopeq, hc]
      have hagg : p.2.agg = sumAgg := by
        rw [hoc] at hpop
        have : Operators OpSum = some sumAgg := rfl
        rw [this] at hpop
        exact (Option.some.inj hpop).symm
      rw [hval, hst0val, hagg, hv]
      rw [foldl_sumAgg]
      have hmaps : l'.map (fun q => extractDecimal q.1.data q.2.rule.field) =
          l'.map (fun q => extractDecimal q.1.data p.2.rule.field) :=
        List.map_congr_left hvals'
      simp only [sumAgg, List.sum_cons]
    · intro hc
      have hoc : p.2.rule.operator = OpMin := by rw [← hopeq, hc]
      have hagg : p.2.agg = minAgg := by
        rw [hoc] at hpop
        have : Operators OpMin = some minAgg := rfl
        rw [this] at hpop
        exact (Option.some.inj hpop).symm
      have happ : minAgg.apply = fun c x => min c x := by
        funext c x
        exact minAgg_apply c x
      rw [hval, hst0val, hagg, happ, hv]
      constructor
      · exact foldl_min_mem _ _
      · exact foldl_min_le _ _
    · intro hc
      have hoc : p.2.rule.operator = OpMax := by rw [← hopeq, hc]
      have hagg : p.2.agg = maxAgg := by
        rw [hoc] at hpop
        have : Operators OpMax = some maxAgg := rfl
        rw [this] at hpop
        exact (Option.some.inj hpop).symm
      have happ : maxAgg.apply = fun c x => max c x := by
        funext c x
        exact maxAgg_apply c x
      rw [hval, hst0val, hagg, happ, hv]
      constructor
      · exact foldl_max_mem _ _
      · exact foldl_max_ge _ _
    · intro data
      simp [extractDecimal]
    · intro data f h
      by_cases hf : f = "" <;> simp [extractDecimal, hf, h]
    · intro data f h
      by_cases hf : f = "" <;> simp [extractDecimal, hf, h]
    · intro data f h
      by_cases hf : f = "" <;> simp [extractDecimal, hf, h]

theorem aggregate_value_is_operator_reduction_witness :
    ({ operator := "count", value := 1, eventCount := 1, lastEventID := "e1",
       ruleFingerprint := "fp-1", windowStart := 0, updatedAt := 0 } :
      AggregateState).eventCount =
      ((contribVals [sampleStoredEvent] [sampleCountRule]
        DefaultBatchJobOptions sampleCountKey).length : Int) :=
  (aggregate_value_is_operator_reduction [sampleStoredEvent] [sampleCountRule]
    DefaultBatchJobOptions 0 (by decide) sampleCountKey _ (by decide)).1

/-! ## Concurrent fold refinement (claim C6) -/

theorem contribList_append (a b : List Event) (rules : List AggregationRule)
    (opts : BatchJobParameter) (k : AggregateKey) :
    contribList (a ++ b) rules opts k =
      contribList a rules opts k ++ contribList b rules opts k := by
  unfold contribList
  rw [List.flatMap_append]

theorem perEventContrib_ne (e : Event) (rules : List AggregationRule)
    (opts : BatchJobParameter) (k : AggregateKey)
    (h : e.principalID ≠ k.principalID) :
    ((toCompiledRuleMap rules e.type).filter
      (fun cr => mkAggKey e cr opts = k)).map (fun cr => (e, cr)) = [] := by
  have hf : (toCompiledRuleMap rules e.type).filter
      (fun cr => mkAggKey e cr opts = k) = [] := by
    rw [List.filter_eq_nil_iff]
    intro cr _
    simp only [decide_eq_true_eq]
    intro hkk
    exact h (by rw [← hkk]; rfl)
  rw [hf]
  rfl

theorem contribList_groupOf (events : List Event) (p : String)
    (rules : List AggregationRule) (opts : BatchJobParameter) (k : AggregateKey) :
    contribList (groupOf events p) rules opts k =
      if k.principalID = p then contribList events rules opts k else [] := by
  induction events with
  | nil =>
    simp [groupOf, contribList]
  | cons e es ih =>
    unfold groupOf at ih ⊢
    rw [List.filter_cons]
    by_cases hep : e.principalID = p
    · rw [if_pos (by simp [hep])]
      unfold contribList at ih ⊢
      rw [List.flatMap_cons, List.flatMap_cons, ih]
      by_cases hkp : k.principalID = p
      · simp [hkp]
      · rw [if_neg hkp, if_neg hkp]
        rw [perEventContrib_ne e rules opts k (by rw [hep]; exact fun hh => hkp hh.symm)]
        rfl
    · rw [if_neg (by simp [hep])]
      rw [ih]
      by_cases hkp : k.principalID = p
      · rw [if_pos hkp, if_pos hkp]
        unfold contribList
        rw [List.flatMap_cons]
        rw [perEventContrib_ne e rules opts k (by rw [hkp]; exact fun hh => hep hh)]
        rfl
      · rw [if_neg hkp, if_neg hkp]

theorem foldl_groups_lookup (events : List Event) (rules : List AggregationRule)
    (opts : BatchJobParameter) (now : Int) (k : AggregateKey)
    (ps : List String) (m : List (AggregateKey × AggregateState)) :
    lookupA (ps.foldl
        (fun l p => mergeGroupAggregates l (groupOf events p) rules opts now) m) k =
      foldKeyState (lookupA m k)
        (ps.flatMap (fun p => contribList (groupOf events p) rules opts k)) now := by
  induction ps generalizing m with
  | nil => rfl
  | cons p ps ih =>
    simp only [List.foldl_cons, List.flatMap_cons]
    rw [ih, foldKeyState_append, mergeGroupAggregates_lookup]

theorem workerLocal_lookup (events : List Event) (rules : List AggregationRule)
    (opts : BatchJobParameter) (now : Int) (k : AggregateKey) (ps : List String) :
    lookupA (workerLocalAggregates events rules opts now ps) k =
      foldKeyState none
        (ps.flatMap (fun p => contribList (groupOf events p) rules opts k)) now :=
  foldl_groups_lookup events rules opts now k ps []

theorem flatMap_group_contribs (events : List Event) (rules : List AggregationRule)
    (opts : BatchJobParameter) (k : AggregateKey) (w : List String)
    (hw : w.Nodup) :
    w.flatMap (fun p => contribList (groupOf events p) rules opts k) =
      if k.principalID ∈ w then contribList events rules opts k else [] := by
  induction w with
  | nil => simp
  | cons p w ih =>
    rw [List.flatMap_cons]
    rw [List.nodup_cons] at hw
    rw [ih hw.2, contribList_groupOf]
    by_cases hkp : k.principalID = p
    · rw [if_pos hkp]
      have hnot : k.principalID ∉ w := by rw [hkp]; exact hw.1
      rw [if_neg hnot, if_pos (by rw [hkp]; exact List.mem_cons_self _ _)]
      simp
    · rw [if_neg hkp]
      by_cases hkw : k.principalID ∈ w
      · rw [if_pos hkw, if_pos (List.mem_cons_of_mem _ hkw)]
        rfl
      · rw [if_neg hkw, if_neg (by simp [hkp, hkw])]
        rfl

theorem lookupA_mergeStateInto_ne (m : List (AggregateKey × AggregateState))
    (kv : AggregateKey × AggregateState) (k : AggregateKey) (h : kv.1 ≠ k) :
    lookupA (mergeStateInto m kv) k = lookupA m k := by
  unfold mergeStateInto
  cases lookupA m kv.1 with
  | none => exact lookupA_setA_ne _ _ _ _ h
  | some ex => exact lookupA_setA_ne _ _ _ _ h

theorem mergeWorkerResults_step (m : List (AggregateKey × AggregateState))
    (kv : AggregateKey × AggregateState)
    (rest : List (AggregateKey × AggregateState)) :
    mergeWorkerResults m (kv :: rest) =
      mergeWorkerResults (mergeStateInto m kv) rest := rfl

theorem mergeWorkerResults_lookup_miss (localMap m : List (AggregateKey × AggregateState))
    (k : AggregateKey) (h : lookupA localMap k = none) :
    lookupA (mergeWorkerResults m localMap) k = lookupA m k := by
  induction localMap generalizing m with
  | nil => rfl
  | cons kv rest ih =>
    obtain ⟨k1, v1⟩ := kv
    have hk1 : k1 ≠ k := by
      intro hk
      subst hk
      simp [lookupA, List.find?] at h
    have hrest : lookupA rest k = none := by
      simpa [lookupA, List.find?, hk1] using h
    rw [mergeWorkerResults_step, ih _ hrest]
    exact lookupA_mergeStateInto_ne m (k1, v1) k hk1

theorem lookupA_none_of_key_not_mem (m : List (AggregateKey × AggregateState))
    (k : AggregateKey) (h : k ∉ m.map (fun p => p.1)) : lookupA m k = none := by
  induction m with
  | nil => rfl
  | cons kv rest ih =>
    simp only [List.map_cons, List.mem_cons, not_or] at h
    have hne : kv.1 ≠ k := fun hh => h.1 hh.symm
    simp only [lookupA, List.find?]
    rw [decide_eq_false hne]
    exact ih h.2

theorem mergeWorkerResults_lookup_hit (localMap m : List (AggregateKey × AggregateState))
    (k : AggregateKey) (hnd : MapKeysNodup localMap)
    (hm : lookupA m k = none) :
    lookupA (mergeWorkerResults m localMap) k = lookupA localMap k := by
  induction localMap generalizing m with
  | nil => exact hm
  | cons kv rest ih =>
    obtain ⟨k1, v1⟩ := kv
    unfold MapKeysNodup at hnd
    simp only [List.map_cons, List.nodup_cons] at hnd
    rw [mergeWorkerResults_step]
    by_cases hk1 : k1 = k
    · subst hk1
      have hrest : lookupA rest k1 = none := lookupA_none_of_key_not_mem rest k1 hnd.1
      rw [mergeWorkerResults_lookup_miss rest _ k1 hrest]
      have hset : mergeStateInto m (k1, v1) = setA m k1 v1 := by
        unfold mergeStateInto
        rw [hm]
      rw [hset, lookupA_setA_self]
      simp [lookupA, List.find?]
    · have hrest2 : lookupA ((k1, v1) :: rest) k = lookupA rest k := by
        simp [lookupA, List.find?, hk1]
      rw [hrest2]
      refine ih _ hnd.2 ?_
      rw [lookupA_mergeStateInto_ne m (k1, v1) k hk1]
      exact hm

theorem foldl_merge_all_miss (locals : List (List (AggregateKey × AggregateState)))
    (m : List (AggregateKey × AggregateState)) (k : AggregateKey)
    (h : ∀ loc ∈ locals, lookupA loc k = none) :
    lookupA (locals.foldl mergeWorkerResults m) k = lookupA m k := by
  induction locals generalizing m with
  | nil => rfl
  | cons loc locals ih =>
    simp only [List.foldl_cons]
    rw [ih _ (fun l hl => h l (List.mem_cons_of_mem _ hl))]
    exact mergeWorkerResults_lookup_miss loc m k (h loc (List.mem_cons_self _ _))

theorem mapKeysNodup_applyRuleToEvent (t : List (AggregateKey × AggregateState))
    (evt : Event) (cr : CompiledRule) (opts : BatchJobParameter) (now : Int)
    (h : MapKeysNodup t) : MapKeysNodup (applyRuleToEvent t evt cr opts now) := by
  unfold applyRuleToEvent
  cases hlk : lookupA t (mkAggKey evt cr opts) with
  | none => simp only [hlk]; exact mapKeysNodup_setA _ _ _ h
  | some st => simp only [hlk]; exact mapKeysNodup_setA _ _ _ h

theorem mapKeysNodup_mergeGroupAggregates (t : List (AggregateKey × AggregateState))
    (events : List Event) (rules : List AggregationRule)
    (opts : BatchJobParameter) (now : Int) (h : MapKeysNodup t) :
    MapKeysNodup (mergeGroupAggregates t events rules opts now) := by
  induction events generalizing t with
  | nil => exact h
  | cons e es ih =>
    unfold mergeGroupAggregates at ih ⊢
    simp only [List.foldl_cons]
    refine ih _ ?_
    unfold processEventRules
    generalize toCompiledRuleMap rules e.type = crs
    induction crs generalizing t with
    | nil => exact h
    | cons cr crs ih2 =>
      simp only [List.foldl_cons]
      exact ih2 _ (mapKeysNodup_applyRuleToEvent _ _ _ _ _ h)

theorem mapKeysNodup_workerLocal (events : List Event)
    (rules : List AggregationRule) (opts : BatchJobParameter) (now : Int)
    (ps : List String) :
    MapKeysNodup (workerLocalAggregates events rules opts now ps) := by
  unfold workerLocalAggregates
  have hgen : ∀ (qs : List String) (m : List (AggregateKey × AggregateState)),
      MapKeysNodup m →
      MapKeysNodup (qs.foldl
        (fun l p => mergeGroupAggregates l (groupOf events p) rules opts now) m) := by
    intro qs
    induction qs with
    | nil => intro m hm; exact hm
    | cons q qs ih =>
      intro m hm
      simp only [List.foldl_cons]
      exact ih _ (mapKeysNodup_mergeGroupAggregates _ _ _ _ _ hm)
  exact hgen ps [] (by simp [MapKeysNodup])

theorem mem_groupPrincipals_of_event (events : List Event) (e : Event)
    (he : e ∈ events) : e.principalID ∈ groupPrincipals events := by
  unfold groupPrincipals
  have hgen : ∀ (acc : List String),
      e.principalID ∈ acc ∨ e ∈ events →
      e.principalID ∈ events.foldl
        (fun acc e => if e.principalID ∈ acc then acc else acc ++ [e.principalID]) acc := by
    clear he
    induction events with
    | nil =>
      intro acc h
      rcases h with h | h
      · exact h
      · simp at h
    | cons x es ih =>
      intro acc h
      simp only [List.foldl_cons]
      by_cases hx : x.principalID ∈ acc
      · rw [if_pos hx]
        rcases h with h | h
        · exact ih acc (Or.inl h)
        · rcases List.mem_cons.1 h with h2 | h2
          · subst h2; exact ih acc (Or.inl hx)
          · exact ih acc (Or.inr h2)
      · rw [if_neg hx]
        rcases h with h | h
        · exact ih _ (Or.inl (List.mem_append_left _ h))
        · rcases List.mem_cons.1 h with h2 | h2
          · subst h2
            exact ih _ (Or.inl (List.mem_append_right _ (List.mem_singleton.2 rfl)))
          · exact ih _ (Or.inr h2)
  exact hgen [] (Or.inr he)

theorem nodup_groupPrincipals (events : List Event) :
    (groupPrincipals events).Nodup := by
  unfold groupPrincipals
  have hgen : ∀ (acc : List String), acc.Nodup →
      (events.foldl
        (fun acc e => if e.principalID ∈ acc then acc else acc ++ [e.principalID]) acc).Nodup := by
    induction events with
    | nil => intro acc h; exact h
    | cons x es ih =>
      intro acc h
      simp only [List.foldl_cons]
      by_cases hx : x.principalID ∈ acc
      · rw [if_pos hx]; exact ih acc h
      · rw [if_neg hx]
        refine ih _ ?_
        simp [List.nodup_append, h, hx]
  exact hgen [] List.nodup_nil

theorem workerLocal_lookup_of_not_mem (events : List Event)
    (rules : List AggregationRule) (opts : BatchJobParameter) (now : Int)
    (k : AggregateKey) (w : List String) (h : k.principalID ∉ w) :
    lookupA (workerLocalAggregates events rules opts now w) k = none := by
  rw [workerLocal_lookup]
  have hnil : w.flatMap (fun p => contribList (groupOf events p) rules opts k) = [] := by
    rw [List.flatMap_eq_nil_iff]
    intro p hp
    rw [contribList_groupOf]
    rw [if_neg (fun hkp : k.principalID = p => h (hkp ▸ hp))]
  rw [hnil]
  rfl

theorem workerLocal_lookup_of_contrib_nil (events : List Event)
    (rules : List AggregationRule) (opts : BatchJobParameter) (now : Int)
    (k : AggregateKey) (w : List String)
    (h : contribList events rules opts k = []) :
    lookupA (workerLocalAggregates events rules opts now w) k = none := by
  rw [workerLocal_lookup]
  have hnil : w.flatMap (fun p => contribList (groupOf events p) rules opts k) = [] := by
    rw [List.flatMap_eq_nil_iff]
    intro p hp
    rw [contribList_groupOf]
    by_cases hkp : k.principalID = p
    · rw [if_pos hkp]; exact h
    · rw [if_neg hkp]
  rw [hnil]
  rfl

theorem workerLocal_lookup_of_mem (events : List Event)
    (rules : List AggregationRule) (opts : BatchJobParameter) (now : Int)
    (k : AggregateKey) (w : List String) (hw : w.Nodup)
    (h : k.principalID ∈ w) :
    lookupA (workerLocalAggregates events rules opts now w) k =
      foldKeyState none (contribList events rules opts k) now := by
  rw [workerLocal_lookup, flatMap_group_contribs events rules opts k w hw, if_pos h]

/-- C6: for every batch of events and rule set, the concurrent build —
grouping events by principal, folding disjoint groups in workers, and
merging the worker-local maps with the per-operator reduce — produces
exactly the same aggregate map (same keys, same states, hence same values
and event counts) as a single sequential fold of all events in order.  The
`schedule` quantifies over every distribution of the principal groups to any
number of workers in any order, so the result holds for every worker
count. -/
theorem concurrent_fold_refines_sequential_fold
    (events : List Event) (rules : List AggregationRule)
    (opts : BatchJobParameter) (now : Int) (schedule : List (List String))
    (hsched : (schedule.flatMap id).Perm (groupPrincipals events)) :
    ∀ k, lookupA (buildPreAggregatesConcurrently events rules opts now schedule) k =
      lookupA (mergeGroupAggregates [] events rules opts now) k := by
  intro k
  have hnodup : (schedule.flatMap id).Nodup :=
    hsched.nodup_iff.2 (nodup_groupPrincipals events)
  have hrhs : lookupA (mergeGroupAggregates [] events rules opts now) k =
      foldKeyState none (contribList events rules opts k) now :=
    mergeGroupAggregates_lookup [] events rules opts now k
  by_cases hc : contribList events rules opts k = []
  · unfold buildPreAggregatesConcurrently
    rw [foldl_merge_all_miss _ _ _ ?_]
    · rw [hrhs, hc]
      rfl
    · intro loc hloc
      rcases List.mem_map.1 hloc with ⟨w, _, rfl⟩
      exact workerLocal_lookup_of_contrib_nil events rules opts now k w hc
  · obtain ⟨p0, hp0⟩ := List.exists_mem_of_ne_nil _ hc
    obtain ⟨hp0ev, _, hp0k⟩ := mem_contribList events rules opts k p0 hp0
    have hprinc : k.principalID = p0.1.principalID := by rw [← hp0k]; rfl
    have hmemgp : k.principalID ∈ groupPrincipals events := by
      rw [hprinc]; exact mem_groupPrincipals_of_event events p0.1 hp0ev
    have hmemsched : k.principalID ∈ schedule.flatMap id := hsched.mem_iff.2 hmemgp
    rcases List.mem_flatMap.1 hmemsched with ⟨w, hwmem, hkw⟩
    obtain ⟨ws1, ws2, rfl⟩ := List.append_of_mem hwmem
    have hsplit : ((ws1 ++ w :: ws2).flatMap id) =
        ws1.flatMap id ++ (w ++ ws2.flatMap id) := by
      rw [List.flatMap_append, List.flatMap_cons]
      rfl
    rw [hsplit] at hnodup
    rw [List.nodup_append] at hnodup
    obtain ⟨hnd1, hnd2, hdisj⟩ := hnodup
    rw [List.nodup_append] at hnd2
    obtain ⟨hndw, hnd2', hdisj2⟩ := hnd2
    have hnot1 : k.principalID ∉ ws1.flatMap id := fun hmem => hdisj hmem
      (List.mem_append_left _ hkw)
    have hnot2 : k.principalID ∉ ws2.flatMap id := hdisj2 hkw
    unfold buildPreAggregatesConcurrently
    rw [List.map_append, List.map_cons, List.foldl_append, List.foldl_cons]
    have hacc1 : lookupA ((ws1.map
        (workerLocalAggregates events rules opts now)).foldl
          mergeWorkerResults []) k = none := by
      rw [foldl_merge_all_miss]
      · rfl
      · intro loc hloc
        rcases List.mem_map.1 hloc with ⟨w1, hw1, rfl⟩
        refine workerLocal_lookup_of_not_mem events rules opts now k w1 ?_
        intro hkmem
        exact hnot1 (List.mem_flatMap.2 ⟨w1, hw1, hkmem⟩)
    rw [foldl_merge_all_miss _ _ _ ?_]
    · rw [mergeWorkerResults_lookup_hit _ _ _
        (by
          unfold MapKeysNodup
          exact (mapKeysNodup_workerLocal events rules opts now w))
        hacc1]
      rw [workerLocal_lookup_of_mem events rules opts now k w hndw hkw, hrhs]
    · intro loc hloc
      rcases List.mem_map.1 hloc with ⟨w2, hw2, rfl⟩
      refine workerLocal_lookup_of_not_mem events rules opts now k w2 ?_
      intro hkmem
      exact hnot2 (List.mem_flatMap.2 ⟨w2, hw2, hkmem⟩)

theorem flush_ok_cases (s s' : PreAggStoreState)
    (aggs : List (AggregateKey × AggregateState)) (cursor : Int)
    (bucketSize : String) (h : flush s aggs cursor bucketSize = .ok s') :
    (cursor ≤ readCheckpoint s bucketSize ∧ s' = s) ∨
    (readCheckpoint s bucketSize < cursor ∧
      applyUpserts s.table aggs
        (if bucketSize = "" then defaultBucketSize else bucketSize) =
        .ok s'.table ∧
      s'.checkpoints = setA s.checkpoints
        (if bucketSize = "" then defaultBucketSize else bucketSize) cursor) := by
  unfold flush at h
  unfold readCheckpoint
  set bn := (if bucketSize = "" then defaultBucketSize else bucketSize) with hbn
  by_cases hle : cursor ≤ (lookupA s.checkpoints bn).getD 0
  · rw [if_pos hle] at h
    exact Or.inl ⟨hle, (Except.ok.inj h).symm⟩
  · rw [if_neg hle] at h
    cases hup : applyUpserts s.table aggs bn with
    | error e => rw [hup] at h; exact absurd h (by simp)
    | ok table' =>
      rw [hup] at h
      have hs' := (Except.ok.inj h).symm
      refine Or.inr ⟨not_le.mp hle, ?_, ?_⟩
      · rw [hs']
      · rw [hs']

theorem readCheckpoint_applyFlush_mono (s : PreAggStoreState) (r : FlushReq)
    (b : String) : readCheckpoint s b ≤ readCheckpoint (applyFlush s r) b := by
  unfold applyFlush
  cases hf : flush s r.aggregates r.cursor r.bucketSize with
  | error e => exact le_refl _
  | ok s' =>
    rcases flush_ok_cases s s' r.aggregates r.cursor r.bucketSize hf with
      ⟨_, rfl⟩ | ⟨hlt, _, hcp⟩
    · exact le_refl _
    · unfold readCheckpoint
      rw [hcp]
      by_cases hb : (if r.bucketSize = "" then defaultBucketSize else r.bucketSize) =
          (if b = "" then defaultBucketSize else b)
      · rw [hb, lookupA_setA_self]
        simp only [Option.getD_some]
        unfold readCheckpoint at hlt
        rw [hb] at hlt
        exact le_of_lt hlt
      · rw [lookupA_setA_ne _ _ _ _ hb]

/-- C2: for any sequence of Flush calls, the durable checkpoint cursor of a
bucket size is non-decreasing; a Flush whose `new_cursor` is at most the
current durable cursor returns success leaving the whole store (both
pre-aggregates and checkpoint) unchanged; and a Flush with a greater cursor
is atomic: a success applies every aggregate upsert and sets the checkpoint
to the new cursor, and a failed transaction leaves the store unchanged. -/
theorem flush_checkpoint_monotone_and_atomic (s : PreAggStoreState)
    (aggs : List (AggregateKey × AggregateState)) (cursor : Int)
    (bucketSize : String) (rs : List FlushReq) :
    readCheckpoint s bucketSize ≤ readCheckpoint (applyFlushes s rs) bucketSize ∧
    (cursor ≤ readCheckpoint s bucketSize →
      flush s aggs cursor bucketSize = .ok s) ∧
    (∀ s', flush s aggs cursor bucketSize = .ok s' →
      (cursor ≤ readCheckpoint s bucketSize ∧ s' = s) ∨
      (readCheckpoint s bucketSize < cursor ∧
        applyUpserts s.table aggs
          (if bucketSize = "" then defaultBucketSize else bucketSize) =
          .ok s'.table ∧
        s'.checkpoints = setA s.checkpoints
          (if bucketSize = "" then defaultBucketSize else bucketSize) cursor ∧
        readCheckpoint s' bucketSize = cursor)) ∧
    (∀ e, flush s aggs cursor bucketSize = .error e →
      applyFlush s ⟨aggs, cursor, bucketSize⟩ = s) := by
  refine ⟨?_, ?_, ?_, ?_⟩
  · induction rs generalizing s with
    | nil => exact le_refl _
    | cons r rs ih =>
      unfold applyFlushes
      simp only [List.foldl_cons]
      exact le_trans (readCheckpoint_applyFlush_mono s r bucketSize)
        (ih (applyFlush s r))
  · intro hle
    unfold flush
    rw [if_pos (by exact hle)]
  · intro s' h
    rcases flush_ok_cases s s' aggs cursor bucketSize h with hcase | ⟨hlt, hup, hcp⟩
    · exact Or.inl hcase
    · refine Or.inr ⟨hlt, hup, hcp, ?_⟩
      unfold readCheckpoint
      rw [hcp, lookupA_setA_self]
      rfl
  · intro e h
    unfold applyFlush
    rw [h]

theorem pairwise_le_getLast (l : List Event)
    (hl : l.Pairwise (fun a b => a.ingestSeq < b.ingestSeq)) (hne : l ≠ []) :
    ∀ e ∈ l, e.ingestSeq ≤ (l.getLast hne).ingestSeq := by
  induction l with
  | nil => exact absurd rfl hne
  | cons a l ih =>
    intro e he
    cases l with
    | nil =>
      simp only [List.mem_singleton] at he
      subst he
      exact le_refl _
    | cons b l2 =>
      rw [List.getLast_cons (List.cons_ne_nil b l2)]
      rw [List.pairwise_cons] at hl
      rcases List.mem_cons.1 he with h | h
      · subst h
        exact le_of_lt (hl.1 _ (List.getLast_mem (List.cons_ne_nil b l2)))
      · exact ih hl.2 (List.cons_ne_nil b l2) e h

/-- C7: one engine iteration that fetches an empty batch returns 0 and
leaves the whole system (including the checkpoint) untouched, with no flush;
an iteration that fetches a non-empty batch flushes exactly the folded
aggregates with `new_cursor` equal to the `ingest_seq` of the last event of
the batch — which is the batch maximum, the batch being sorted ascending —
and returns the number of fetched events. -/
theorem batch_iteration_postconditions (sys : SystemState)
    (rules : List AggregationRule) (opts : BatchJobParameter) (now : Int) :
    (retrieveEventsAfterCursor sys.es
        (readCheckpoint sys.pas opts.normalized.bucketLabel)
        opts.normalized.batchSize.toNat = [] →
      runBatchAggregationWithOptionsReturningCount sys rules opts now =
        .ok (sys, 0)) ∧
    (∀ events : List Event,
      retrieveEventsAfterCursor sys.es
          (readCheckpoint sys.pas opts.normalized.bucketLabel)
          opts.normalized.batchSize.toNat = events →
      ∀ hne : events ≠ [], ∀ s' : SystemState, ∀ n : Nat,
      runBatchAggregationWithOptionsReturningCount sys rules opts now =
        .ok (s', n) →
      n = events.length ∧ s'.es = sys.es ∧
      flush sys.pas (buildPreAggregates events rules opts.normalized now)
        ((events.getLast hne).ingestSeq) opts.normalized.bucketLabel =
        .ok s'.pas) ∧
    (EventStoreWF sys.es →
      ∀ events : List Event,
      retrieveEventsAfterCursor sys.es
          (readCheckpoint sys.pas opts.normalized.bucketLabel)
          opts.normalized.batchSize.toNat = events →
      ∀ hne : events ≠ [], ∀ e ∈ events,
        e.ingestSeq ≤ (events.getLast hne).ingestSeq) := by
  refine ⟨?_, ?_, ?_⟩
  · intro hemp
    unfold runBatchAggregationWithOptionsReturningCount
    split
    · rfl
    · rename_i e rest heq
      rw [hemp] at heq
      exact absurd heq.symm (List.cons_ne_nil e rest)
  · intro events hev hne s' n hrun
    unfold runBatchAggregationWithOptionsReturningCount at hrun
    split at hrun
    · rename_i heq
      rw [heq] at hev
      exact absurd hev.symm hne
    · rename_i e rest heq
      rw [heq] at hev
      subst hev
      cases hf : flush sys.pas (buildPreAggregates (e :: rest) rules
          opts.normalized now)
          ((e :: rest).getLast (List.cons_ne_nil e rest)).ingestSeq
          opts.normalized.bucketLabel with
      | error msg =>
        rw [hf] at hrun
        exact absurd hrun (by simp)
      | ok pas' =>
        rw [hf] at hrun
        have hpair := Except.ok.inj hrun
        have hs : s' = { sys with pas := pas' } := (congrArg Prod.fst hpair).symm
        have hn : n = (e :: rest).length := (congrArg Prod.snd hpair).symm
        refine ⟨hn, by rw [hs], ?_⟩
        have hsp : s'.pas = pas' := by rw [hs]
        rw [hsp]
  · intro hwf events hev hne e he
    have hsubl : List.Sublist events sys.es.log := by
      rw [← hev]
      unfold retrieveEventsAfterCursor
      exact (List.take_sublist _ _).trans (List.filter_sublist _)
    exact pairwise_le_getLast events (hwf.1.sublist hsubl) hne e he

theorem batch_iteration_postconditions_witness :
    runBatchAggregationWithOptionsReturningCount
      { es := initEventStore, pas := initPreAggStore } [sampleCountRule]
      DefaultBatchJobOptions 0 =
      .ok ({ es := initEventStore, pas := initPreAggStore }, 0) :=
  (batch_iteration_postconditions
    { es := initEventStore, pas := initPreAggStore } [sampleCountRule]
    DefaultBatchJobOptions 0).1 (by decide)

theorem flush_checkpoint_monotone_and_atomic_witness :
    flush { checkpoints := [("1m", 5)], table := [] } [] 3 "1m" =
      .ok { checkpoints := [("1m", 5)], table := [] } :=
  (flush_checkpoint_monotone_and_atomic
    { checkpoints := [("1m", 5)], table := [] } [] 3 "1m" []).2.1 (by decide)

/-! ## Tail-scan cap (claim C9) -/

theorem retrieveScoped_eq_take (es : EventStoreState) (cursor : Int)
    (p t : String) (s e : Int) (limit : Nat) :
    retrieveScopedEventsAfterCursor es cursor p t s e limit =
      (scopedMatching es cursor p t s e).take limit := rfl

theorem scopedMatching_pairwise (es : EventStoreState) (cursor : Int)
    (p t : String) (s e : Int) (hwf : EventStoreWF es) :
    (scopedMatching es cursor p t s e).Pairwise
      (fun a b => a.ingestSeq < b.ingestSeq) :=
  hwf.1.sublist (List.filter_sublist _)

theorem scopedMatching_shift (es : EventStoreState) (c c' : Int)
    (p t : String) (s e : Int) (hcc : c ≤ c') :
    scopedMatching es c' p t s e =
      (scopedMatching es c p t s e).filter (fun x => c' < x.ingestSeq) := by
  unfold scopedMatching
  rw [List.filter_filter]
  apply List.filter_congr
  intro x _
  have hiff : (c' < x.ingestSeq ∧ x.principalID = p ∧ x.type = t ∧
      s ≤ x.occurredAt ∧ x.occurredAt < e) ↔
      ((c < x.ingestSeq ∧ x.principalID = p ∧ x.type = t ∧
        s ≤ x.occurredAt ∧ x.occurredAt < e) ∧ c' < x.ingestSeq) := by
    constructor
    · rintro ⟨ha, hb⟩
      exact ⟨⟨lt_of_le_of_lt hcc ha, hb⟩, ha⟩
    · rintro ⟨⟨_, hb⟩, ha⟩
      exact ⟨ha, hb⟩
  calc decide (c' < x.ingestSeq ∧ x.principalID = p ∧ x.type = t ∧
        s ≤ x.occurredAt ∧ x.occurredAt < e)
      = decide ((c < x.ingestSeq ∧ x.principalID = p ∧ x.type = t ∧
          s ≤ x.occurredAt ∧ x.occurredAt < e) ∧ c' < x.ingestSeq) := by
        rw [decide_eq_decide]
        exact hiff
    _ = (decide (c < x.ingestSeq ∧ x.principalID = p ∧ x.type = t ∧
          s ≤ x.occurredAt ∧ x.occurredAt < e) && decide (c' < x.ingestSeq)) := by
        exact Bool.decide_and _ _
    _ = (decide (c' < x.ingestSeq) &&
          decide (c < x.ingestSeq ∧ x.principalID = p ∧ x.type = t ∧
            s ≤ x.occurredAt ∧ x.occurredAt < e)) := Bool.and_comm _ _

theorem scopedMatching_advance (es : EventStoreState) (cursor : Int)
    (p t : String) (s e : Int) (hwf : EventStoreWF es) (n : Nat)
    (hn : ((scopedMatching es cursor p t s e).take n).length = n)
    (hne : (scopedMatching es cursor p t s e).take n ≠ []) :
    scopedMatching es
      (((scopedMatching es cursor p t s e).take n).getLast hne).ingestSeq
      p t s e = (scopedMatching es cursor p t s e).drop n := by
  have hlastmem : ((scopedMatching es cursor p t s e).take n).getLast hne ∈
      (scopedMatching es cursor p t s e).take n := List.getLast_mem hne
  have hlastm : ((scopedMatching es cursor p t s e).take n).getLast hne ∈
      scopedMatching es cursor p t s e :=
    (List.take_sublist _ _).subset hlastmem
  have hlastc : cursor <
      (((scopedMatching es cursor p t s e).take n).getLast hne).ingestSeq := by
    unfold scopedMatching at hlastm
    have hmf := (List.mem_filter.1 hlastm).2
    simp only [Bool.and_eq_true, decide_eq_true_eq] at hmf
    exact hmf.1
  rw [scopedMatching_shift es cursor _ p t s e (le_of_lt hlastc)]
  have hpair := scopedMatching_pairwise es cursor p t s e hwf
  have htakele := pairwise_le_getLast ((scopedMatching es cursor p t s e).take n)
    (hpair.sublist (List.take_sublist _ _)) hne
  have hdropgt : ∀ x ∈ (scopedMatching es cursor p t s e).drop n,
      (((scopedMatching es cursor p t s e).take n).getLast hne).ingestSeq <
        x.ingestSeq := by
    intro x hx
    have hsplit := List.take_append_drop n (scopedMatching es cursor p t s e)
    have hp2 : ((scopedMatching es cursor p t s e).take n ++
        (scopedMatching es cursor p t s e).drop n).Pairwise
        (fun a b => a.ingestSeq < b.ingestSeq) := by
      rw [hsplit]
      exact hpair
    rw [List.pairwise_append] at hp2
    exact hp2.2.2 _ hlastmem x hx
  calc (scopedMatching es cursor p t s e).filter (fun x =>
        (((scopedMatching es cursor p t s e).take n).getLast hne).ingestSeq <
          x.ingestSeq)
      = ((scopedMatching es cursor p t s e).take n ++
          (scopedMatching es cursor p t s e).drop n).filter (fun x =>
        (((scopedMatching es cursor p t s e).take n).getLast hne).ingestSeq <
          x.ingestSeq) := by
        rw [List.take_append_drop]
    _ = [] ++ (scopedMatching es cursor p t s e).drop n := by
        rw [List.filter_append]
        congr 1
        · rw [List.filter_eq_nil_iff]
          intro x hx
          simp only [decide_eq_true_eq, not_lt]
          exact htakele x hx
        · rw [List.filter_eq_self]
          intro x hx
          simp only [decide_eq_true_eq]
          exact hdropgt x hx
    _ = (scopedMatching es cursor p t s e).drop n := by
        rw [List.nil_append]

theorem scanScopedLoop_spec (es : EventStoreState) (p t : String) (s e : Int)
    (hwf : EventStoreWF es) :
    ∀ (r : Nat) (cursor : Int),
    (rawQueryBatchSize * r ≤ (scopedMatching es cursor p t s e).length →
      ∃ msg, scanScopedLoop es p t s e r cursor = .error msg) ∧
    ((scopedMatching es cursor p t s e).length < rawQueryBatchSize * r →
      scanScopedLoop es p t s e r cursor =
        .ok (scopedMatching es cursor p t s e)) := by
  intro r
  induction r with
  | zero =>
    intro cursor
    refine ⟨fun _ => ⟨_, rfl⟩, fun hlt => absurd hlt (by simp)⟩
  | succ r ih =>
    intro cursor
    have hunf : scanScopedLoop es p t s e (r + 1) cursor =
        match (scopedMatching es cursor p t s e).take rawQueryBatchSize with
        | [] => .ok []
        | x :: rest =>
            if (x :: rest).length < rawQueryBatchSize then .ok (x :: rest)
            else
              match scanScopedLoop es p t s e r
                  ((x :: rest).getLast (List.cons_ne_nil x rest)).ingestSeq with
              | .error msg => .error msg
              | .ok more => .ok ((x :: rest) ++ more) := rfl
    have h5000 : rawQueryBatchSize = 5000 := rfl
    cases hb : (scopedMatching es cursor p t s e).take rawQueryBatchSize with
    | nil =>
      have hlen : (scopedMatching es cursor p t s e).length = 0 := by
        have := congrArg List.length hb
        rw [List.length_take] at this
        simp only [List.length_nil, h5000] at this
        omega
      rw [hunf, hb]
      constructor
      · intro hge
        exfalso
        rw [hlen, h5000] at hge
        omega
      · intro _
        rw [List.length_eq_zero] at hlen
        rw [hlen]
    | cons x rest =>
      rw [hunf, hb]
      dsimp only
      have hblen := congrArg List.length hb
      rw [List.length_take] at hblen
      by_cases hshort : (x :: rest).length < rawQueryBatchSize
      · have hlenm : (scopedMatching es cursor p t s e).length < rawQueryBatchSize := by
          rw [h5000] at hshort hblen ⊢
          simp only [List.length_cons] at hshort hblen
          omega
        have hall : (scopedMatching es cursor p t s e).take rawQueryBatchSize =
            scopedMatching es cursor p t s e :=
          List.take_of_length_le (le_of_lt hlenm)
        rw [if_pos hshort]
        constructor
        · intro hge
          exfalso
          rw [h5000] at hge hlenm
          omega
        · intro _
          rw [← hb, hall]
      · rw [if_neg hshort]
        have hfull : (x :: rest).length = rawQueryBatchSize := by
          rw [h5000] at hshort hblen ⊢
          simp only [List.length_cons] at hshort hblen ⊢
          omega
        have hlenge : rawQueryBatchSize ≤ (scopedMatching es cursor p t s e).length := by
          rw [h5000] at hblen hfull ⊢
          simp only [List.length_cons] at hblen hfull
          omega
        have htake_len : ((scopedMatching es cursor p t s e).take
            rawQueryBatchSize).length = rawQueryBatchSize := by
          rw [hb]
          exact hfull
        have hne : (scopedMatching es cursor p t s e).take rawQueryBatchSize ≠ [] := by
          rw [hb]
          exact List.cons_ne_nil x rest
        have hadv := scopedMatching_advance es cursor p t s e hwf
          rawQueryBatchSize htake_len hne
        have hlast_eq : ((x :: rest).getLast (List.cons_ne_nil x rest)) =
            (((scopedMatching es cursor p t s e).take
              rawQueryBatchSize).getLast hne) := by
          congr 1
          exact hb.symm
        rw [hlast_eq]
        obtain ⟨ih1, ih2⟩ := ih
          ((((scopedMatching es cursor p t s e).take
            rawQueryBatchSize).getLast hne).ingestSeq)
        rw [hadv] at ih1 ih2
        have hdroplen : ((scopedMatching es cursor p t s e).drop
            rawQueryBatchSize).length =
            (scopedMatching es cursor p t s e).length - rawQueryBatchSize := by
          rw [List.length_drop]
        constructor
        · intro hge
          obtain ⟨msg, hmsg⟩ := ih1 (by rw [h5000] at hge hlenge hdroplen ⊢; omega)
          rw [hmsg]
          exact ⟨msg, rfl⟩
        · intro hlt
          rw [ih2 (by rw [h5000] at hlt hlenge hdroplen ⊢; omega)]
          dsimp only
          have hjoin : (x :: rest) ++
              (scopedMatching es cursor p t s e).drop rawQueryBatchSize =
              scopedMatching es cursor p t s e := by
            rw [← hb]
            exact List.take_append_drop _ _
          exact congrArg Except.ok hjoin

/-- C9: the raw-event tail scan advances through full batches of 5,000 and
stops on an empty or short batch; with fewer than 20 × 5,000 matching
events past the cursor it succeeds and returns exactly all of them (never a
partial result), while with at least 20 × 5,000 it fails, and a
QueryAggregates call whose scoped backlog reaches the cap returns an error
rather than a partial response. -/
theorem tail_scan_cap (es : EventStoreState) (cursor : Int)
    (tenantID principalID eventType : String) (startT endT : Int)
    (hwf : EventStoreWF es) :
    (maxRawQueryIterations * rawQueryBatchSize ≤
        (scopedMatching es cursor principalID eventType startT endT).length →
      ∃ msg, scanScopedRawEvents es cursor tenantID principalID eventType
        startT endT = .error msg) ∧
    ((scopedMatching es cursor principalID eventType startT endT).length <
        maxRawQueryIterations * rawQueryBatchSize →
      scanScopedRawEvents es cursor tenantID principalID eventType startT endT =
        .ok (scopedMatching es cursor principalID eventType startT endT)) ∧
    (∀ (sys : SystemState) (rules : List AggregationRule)
      (req req' : AggregateQueryRequest) (rule : AggregationRule) (now : Int),
      sys.es = es →
      normalizeAndValidate req = .ok req' →
      rulesMapLookup rules req'.rule = some rule →
      maxRawQueryIterations * rawQueryBatchSize ≤
        (scopedMatching es
          (readCheckpoint sys.pas "1m") req'.principalID rule.sourceEvent
          req'.start req'.endTime).length →
      ∃ msg, queryAggregates sys rules req now = .error (.backend msg)) := by
  have hspec := scanScopedLoop_spec es principalID eventType startT endT hwf
    maxRawQueryIterations cursor
  have h5000 : rawQueryBatchSize = 5000 := rfl
  have h20 : maxRawQueryIterations = 20 := rfl
  refine ⟨?_, ?_, ?_⟩
  · intro hge
    rw [h5000, h20] at hge
    exact hspec.1 (by rw [h5000, h20]; omega)
  · intro hlt
    rw [h5000, h20] at hlt
    exact hspec.2 (by rw [h5000, h20]; omega)
  · intro sys rules req req' rule now hes hnorm hrule hbig
    subst hes
    have hspec2 := scanScopedLoop_spec sys.es req'.principalID rule.sourceEvent
      req'.start req'.endTime hwf maxRawQueryIterations
      (readCheckpoint sys.pas "1m")
    rw [h5000, h20] at hbig
    obtain ⟨msg, hmsg⟩ := hspec2.1 (by rw [h5000, h20]; omega)
    unfold queryAggregates
    rw [hnorm]
    dsimp only
    rw [hrule]
    dsimp only
    have hcp : (queryRangeWithCheckpoint sys.pas req'.principalID req'.rule "1m"
        req'.start req'.endTime).2 = readCheckpoint sys.pas "1m" := rfl
    unfold loadRawEvents
    rw [hcp]
    have hpb : parseBucketSize "1m" = .ok minuteNs := rfl
    rw [hpb]
    cases hop : Operators rule.operator with
    | none =>
      exact ⟨"query raw event tail: " ++ ("unknown rule operator: " ++ rule.operator),
        rfl⟩
    | some reducer =>
      unfold scanScopedRawEvents
      rw [hmsg]
      exact ⟨"query raw event tail: " ++ msg, rfl⟩

theorem tail_scan_cap_witness :
    scanScopedRawEvents initEventStore 0 "tenant-1" "p1" "api.request" 0
      3600000000000 =
      .ok (scopedMatching initEventStore 0 "p1" "api.request" 0 3600000000000) :=
  (tail_scan_cap initEventStore 0 "tenant-1" "p1" "api.request" 0 3600000000000
    (by decide)).2.1 (by decide)

theorem concurrent_fold_refines_sequential_fold_witness :
    lookupA (buildPreAggregatesConcurrently [sampleStoredEvent, sampleFreshEvent]
      [sampleCountRule] DefaultBatchJobOptions 0 [["p2"], ["p1"]]) sampleCountKey =
    lookupA (mergeGroupAggregates [] [sampleStoredEvent, sampleFreshEvent]
      [sampleCountRule] DefaultBatchJobOptions 0) sampleCountKey :=
  concurrent_fold_refines_sequential_fold [sampleStoredEvent, sampleFreshEvent]
    [sampleCountRule] DefaultBatchJobOptions 0 [["p2"], ["p1"]] (by decide)
    sampleCountKey

/-! ## Roll-up lemmas (claim C8) -/

theorem bucketFor_le (t g : Int) (h : 0 < g) : bucketFor t g ≤ t := by
  unfold bucketFor
  rw [Int.fdiv_eq_ediv _ (le_of_lt h)]
  have := Int.emod_nonneg t (ne_of_gt h)
  have := Int.ediv_add_emod t g
  omega

theorem lt_bucketFor_add (t g : Int) (h : 0 < g) : t < bucketFor t g + g := by
  unfold bucketFor
  rw [Int.fdiv_eq_ediv _ (le_of_lt h)]
  have := Int.emod_lt_of_pos t h
  have := Int.ediv_add_emod t g
  omega

theorem bucketFor_mono (s t g : Int) (h : 0 < g) (hst : s ≤ t) :
    bucketFor s g ≤ bucketFor t g := by
  unfold bucketFor
  rw [Int.fdiv_eq_ediv _ (le_of_lt h), Int.fdiv_eq_ediv _ (le_of_lt h)]
  exact mul_le_mul_of_nonneg_left (Int.ediv_le_ediv h hst) (le_of_lt h)

theorem bucketFor_dvd (t g : Int) : g ∣ bucketFor t g :=
  ⟨Int.fdiv t g, rfl⟩

theorem bucketFor_dvd_sub (s t g : Int) : g ∣ (bucketFor t g - bucketFor s g) :=
  dvd_sub (bucketFor_dvd t g) (bucketFor_dvd s g)

theorem truncateToDay_eq_bucketFor (t : Int) :
    truncateToDay t = bucketFor t dayNs := rfl

theorem hourNs_pos : (0 : Int) < hourNs := by decide

theorem dayNs_pos : (0 : Int) < dayNs := by decide

theorem totalFoldStep_countsum_eq (op : String)
    (hop : op = "count" ∨ op = "sum") (acc : ℚ × Int × Bool)
    (a : AggregateState) :
    totalFoldStep op acc a = (acc.1 + a.value, acc.2.1 + a.eventCount, acc.2.2) := by
  unfold totalFoldStep
  rw [if_pos hop]

theorem foldl_totalFoldStep_countsum (op : String)
    (hop : op = "count" ∨ op = "sum") (l : List AggregateState) :
    ∀ (v : ℚ) (c : Int) (b : Bool),
      l.foldl (totalFoldStep op) (v, c, b) =
        (v + (l.map (fun a => a.value)).sum,
         c + (l.map (fun a => a.eventCount)).sum, b) := by
  induction l with
  | nil => intro v c b; simp
  | cons a l ih =>
      intro v c b
      rw [List.foldl_cons, totalFoldStep_countsum_eq op hop, ih]
      simp only [List.map_cons, List.sum_cons]
      exact Prod.ext (by ring) (Prod.ext (by ring) rfl)

theorem totalFoldStep_min_true (v : ℚ) (c : Int) (a : AggregateState) :
    totalFoldStep "min" (v, c, true) a = (min v a.value, c + a.eventCount, true) := by
  unfold totalFoldStep
  rw [if_neg (by decide), if_pos rfl]
  by_cases h : a.value < v
  · rw [if_pos (Or.inr h)]
    exact Prod.ext ((min_eq_right (le_of_lt h)).symm) rfl
  · rw [if_neg (by simp [h])]
    exact Prod.ext ((min_eq_left (le_of_not_lt h)).symm) rfl

theorem totalFoldStep_max_true (v : ℚ) (c : Int) (a : AggregateState) :
    totalFoldStep "max" (v, c, true) a = (max v a.value, c + a.eventCount, true) := by
  unfold totalFoldStep
  rw [if_neg (by decide), if_neg (by decide), if_pos rfl]
  by_cases h : v < a.value
  · rw [if_pos (Or.inr h)]
    exact Prod.ext ((max_eq_right (le_of_lt h)).symm) rfl
  · rw [if_neg (by simp [h])]
    exact Prod.ext ((max_eq_left (le_of_not_lt h)).symm) rfl

theorem foldl_totalFoldStep_min (l : List AggregateState) :
    ∀ (v : ℚ) (c : Int),
      l.foldl (totalFoldStep "min") (v, c, true) =
        ((l.map (fun a => a.value)).foldl min v,
         c + (l.map (fun a => a.eventCount)).sum, true) := by
  induction l with
  | nil => intro v c; simp
  | cons a l ih =>
      intro v c
      rw [List.foldl_cons, totalFoldStep_min_true, ih]
      simp only [List.map_cons, List.sum_cons, List.foldl_cons]
      exact Prod.ext rfl (Prod.ext (by ring) rfl)

theorem foldl_totalFoldStep_max (l : List AggregateState) :
    ∀ (v : ℚ) (c : Int),
      l.foldl (totalFoldStep "max") (v, c, true) =
        ((l.map (fun a => a.value)).foldl max v,
         c + (l.map (fun a => a.eventCount)).sum, true) := by
  induction l with
  | nil => intro v c; simp
  | cons a l ih =>
      intro v c
      rw [List.foldl_cons, totalFoldStep_max_true, ih]
      simp only [List.map_cons, List.sum_cons, List.foldl_cons]
      exact Prod.ext rfl (Prod.ext (by ring) rfl)

theorem foldl_totalFoldStep_min_cons (a : AggregateState) (l : List AggregateState) :
    (a :: l).foldl (totalFoldStep "min") ((0 : ℚ), (0 : Int), false) =
      ((l.map (fun b => b.value)).foldl min a.value,
       a.eventCount + (l.map (fun b => b.eventCount)).sum, true) := by
  rw [List.foldl_cons]
  have h1 : totalFoldStep "min" ((0 : ℚ), (0 : Int), false) a =
      (a.value, 0 + a.eventCount, true) := by
    unfold totalFoldStep
    rw [if_neg (by decide), if_pos rfl, if_pos (Or.inl (by simp))]
  rw [h1, foldl_totalFoldStep_min]
  exact Prod.ext rfl (Prod.ext (by ring) rfl)

theorem foldl_totalFoldStep_max_cons (a : AggregateState) (l : List AggregateState) :
    (a :: l).foldl (totalFoldStep "max") ((0 : ℚ), (0 : Int), false) =
      ((l.map (fun b => b.value)).foldl max a.value,
       a.eventCount + (l.map (fun b => b.eventCount)).sum, true) := by
  rw [List.foldl_cons]
  have h1 : totalFoldStep "max" ((0 : ℚ), (0 : Int), false) a =
      (a.value, 0 + a.eventCount, true) := by
    unfold totalFoldStep
    rw [if_neg (by decide), if_neg (by decide), if_pos rfl,
      if_pos (Or.inl (by simp))]
  rw [h1, foldl_totalFoldStep_max]
  exact Prod.ext rfl (Prod.ext (by ring) rfl)

theorem gridEntriesAux_map_windowStart (step : Int) (mk : Int → AggregateValue)
    (hmk : ∀ h, (mk h).windowStart = h) :
    ∀ (fuel : Nat) (current stop : Int),
      (gridEntriesAux step mk fuel current stop).map (fun v => v.windowStart) =
        gridPointsAux step fuel current stop := by
  intro fuel
  induction fuel with
  | zero => intro current stop; rfl
  | succ n ih =>
      intro current stop
      unfold gridEntriesAux gridPointsAux
      by_cases h : current < stop
      · rw [if_pos h, if_pos h, List.map_cons, hmk, ih]
      · rw [if_neg h, if_neg h]
        rfl

theorem gridEntriesAux_shape (step : Int) (hstep : 0 < step)
    (mk : Int → AggregateValue) :
    ∀ (fuel : Nat) (current stop : Int),
      ∀ v ∈ gridEntriesAux step mk fuel current stop,
        ∃ h, v = mk h ∧ current ≤ h ∧ h < stop ∧ step ∣ (h - current) := by
  intro fuel
  induction fuel with
  | zero =>
      intro current stop v hv
      simp [gridEntriesAux] at hv
  | succ n ih =>
      intro current stop v hv
      unfold gridEntriesAux at hv
      by_cases h : current < stop
      · rw [if_pos h] at hv
        rcases List.mem_cons.mp hv with h1 | h1
        · exact ⟨current, h1, le_refl _, h, by simp⟩
        · obtain ⟨x, hx, hx1, hx2, hx3⟩ := ih (current + step) stop v h1
          refine ⟨x, hx, by omega, hx2, ?_⟩
          obtain ⟨k, hk⟩ := hx3
          exact ⟨k + 1, by linear_combination hk⟩
      · rw [if_neg h] at hv
        simp at hv

theorem gridEntriesAux_mem (step : Int) (hstep : 0 < step)
    (mk : Int → AggregateValue) :
    ∀ (fuel : Nat) (current stop x : Int),
      (stop - current).toNat ≤ fuel → current ≤ x → x < stop →
      step ∣ (x - current) →
      mk x ∈ gridEntriesAux step mk fuel current stop := by
  intro fuel
  induction fuel with
  | zero =>
      intro current stop x hfuel hx1 hx2 _
      omega
  | succ n ih =>
      intro current stop x hfuel hx1 hx2 hdiv
      have hcs : current < stop := by omega
      unfold gridEntriesAux
      rw [if_pos hcs]
      by_cases hx : x = current
      · rw [hx]
        exact List.mem_cons_self _ _
      · have hpos : 0 < x - current := by omega
        have hle : step ≤ x - current := Int.le_of_dvd hpos hdiv
        have hdiv' : step ∣ (x - (current + step)) := by
          have hs : x - (current + step) = (x - current) - step := by ring
          rw [hs]
          exact dvd_sub hdiv dvd_rfl
        exact List.mem_cons_of_mem _
          (ih (current + step) stop x (by omega) (by omega) hx2 hdiv')

theorem gridEntries_pos (step : Int) (mk : Int → AggregateValue)
    (current stop : Int) (h : 0 < step) :
    gridEntries step mk current stop =
      gridEntriesAux step mk (stop - current).toNat current stop := by
  unfold gridEntries
  rw [if_pos h]

theorem rollupTotal_cons (a : AggregateState) (rest : List AggregateState)
    (startT endT : Int) :
    rollupTotal (a :: rest) startT endT =
      [{ windowStart := startT, windowEnd := endT,
         value := ((a :: rest).foldl (totalFoldStep a.operator) (0, 0, false)).1,
         eventCount :=
           ((a :: rest).foldl (totalFoldStep a.operator) (0, 0, false)).2.1 }] := rfl

theorem rollupToHour_nil (startT endT : Int) :
    rollupToHour [] startT endT = emptyHourlyBuckets startT endT := rfl

theorem rollupToHour_cons (a : AggregateState) (rest : List AggregateState)
    (startT endT : Int) :
    rollupToHour (a :: rest) startT endT =
      gridEntries hourNs
        (fun h =>
          { windowStart := h, windowEnd := h + hourNs,
            value := (((a :: rest).filter
              (fun agg => bucketFor agg.windowStart hourNs = h)).foldl
              (totalFoldStep a.operator) (0, 0, false)).1,
            eventCount := (((a :: rest).filter
              (fun agg => bucketFor agg.windowStart hourNs = h)).foldl
              (totalFoldStep a.operator) (0, 0, false)).2.1 })
        (bucketFor startT hourNs) endT := rfl

theorem rollupToDay_nil (startT endT : Int) :
    rollupToDay [] startT endT = emptyDailyBuckets startT endT := rfl

theorem rollupToDay_cons (a : AggregateState) (rest : List AggregateState)
    (startT endT : Int) :
    rollupToDay (a :: rest) startT endT =
      gridEntries dayNs
        (fun d =>
          { windowStart := d, windowEnd := d + dayNs,
            value := (((a :: rest).filter
              (fun agg => truncateToDay agg.windowStart = d)).foldl
              (totalFoldStep a.operator) (0, 0, false)).1,
            eventCount := (((a :: rest).filter
              (fun agg => truncateToDay agg.windowStart = d)).foldl
              (totalFoldStep a.operator) (0, 0, false)).2.1 })
        (truncateToDay startT) (dayStopOf endT) := rfl

theorem le_dayStopOf (endT : Int) : endT ≤ dayStopOf endT := by
  unfold dayStopOf
  by_cases h : truncateToDay endT < endT
  · rw [if_pos h, truncateToDay_eq_bucketFor]
    have := lt_bucketFor_add endT dayNs dayNs_pos
    omega
  · rw [if_neg h]
    omega

theorem convertToValues_values (aggs : List AggregateState) (d : Int) :
    (convertToValues aggs d).map (fun v => v.value) =
      aggs.map (fun a => a.value) := by
  unfold convertToValues
  rw [List.map_map]
  rfl

theorem sum_filter_step_split (key : AggregateState → Int)
    (f : AggregateState → ℚ) (step current stop : Int) (hstep : 0 < step)
    (hcs : current < stop) :
    ∀ (aggs : List AggregateState), (∀ a ∈ aggs, step ∣ (key a - current)) →
      ((aggs.filter (fun a => current ≤ key a ∧ key a < stop)).map f).sum =
        ((aggs.filter (fun a => key a = current)).map f).sum +
        ((aggs.filter
          (fun a => current + step ≤ key a ∧ key a < stop)).map f).sum := by
  intro aggs
  induction aggs with
  | nil => intro _; simp
  | cons a l ih =>
      intro hdiv
      have hd := hdiv a (List.mem_cons_self a l)
      have ihl := ih (fun b hb => hdiv b (List.mem_cons_of_mem a hb))
      by_cases h1 : key a = current
      · rw [List.filter_cons_of_pos (by simp only [decide_eq_true_eq]; omega),
            List.filter_cons_of_pos (by simp only [decide_eq_true_eq]; omega),
            List.filter_cons_of_neg (by simp only [decide_eq_true_eq]; omega)]
        rw [List.map_cons, List.sum_cons, List.map_cons, List.sum_cons, ihl]
        ring
      · by_cases h2 : current ≤ key a ∧ key a < stop
        · have hpos : 0 < key a - current := by omega
          have hge : step ≤ key a - current := Int.le_of_dvd hpos hd
          rw [List.filter_cons_of_pos (by simp only [decide_eq_true_eq]; omega),
              List.filter_cons_of_neg (by simp only [decide_eq_true_eq]; omega),
              List.filter_cons_of_pos (by simp only [decide_eq_true_eq]; omega)]
          rw [List.map_cons, List.sum_cons, List.map_cons, List.sum_cons, ihl]
          ring
        · rw [List.filter_cons_of_neg (by simp only [decide_eq_true_eq]; omega),
              List.filter_cons_of_neg (by simp only [decide_eq_true_eq]; omega),
              List.filter_cons_of_neg (by simp only [decide_eq_true_eq]; omega)]
          exact ihl

theorem gridEntriesAux_value_sum (step : Int) (hstep : 0 < step)
    (mk : Int → AggregateValue) (key : AggregateState → Int)
    (aggs : List AggregateState)
    (hmk : ∀ h, (mk h).value =
      ((aggs.filter (fun a => key a = h)).map (fun a => a.value)).sum) :
    ∀ (fuel : Nat) (current stop : Int),
      (stop - current).toNat ≤ fuel →
      (∀ a ∈ aggs, step ∣ (key a - current)) →
      ((gridEntriesAux step mk fuel current stop).map (fun v => v.value)).sum =
        ((aggs.filter (fun a => current ≤ key a ∧ key a < stop)).map
          (fun a => a.value)).sum := by
  intro fuel
  induction fuel with
  | zero =>
      intro current stop hfuel _
      have hfe : aggs.filter (fun a => current ≤ key a ∧ key a < stop) = [] := by
        rw [List.filter_eq_nil_iff]
        intro a _
        simp only [decide_eq_true_eq]
        omega
      rw [hfe]
      simp [gridEntriesAux]
  | succ n ih =>
      intro current stop hfuel hdiv
      by_cases hcs : current < stop
      · have hdiv' : ∀ a ∈ aggs, step ∣ (key a - (current + step)) := by
          intro a ha
          have h0 := hdiv a ha
          have hs : key a - (current + step) = (key a - current) - step := by ring
          rw [hs]
          exact dvd_sub h0 dvd_rfl
        have hrec := ih (current + step) stop (by omega) hdiv'
        unfold gridEntriesAux
        rw [if_pos hcs, List.map_cons, List.sum_cons, hmk, hrec]
        exact (sum_filter_step_split key (fun a => a.value) step current stop
          hstep hcs aggs hdiv).symm
      · have hfe : aggs.filter (fun a => current ≤ key a ∧ key a < stop) = [] := by
          rw [List.filter_eq_nil_iff]
          intro a _
          simp only [decide_eq_true_eq]
          omega
        unfold gridEntriesAux
        rw [if_neg hcs, hfe]
        simp

theorem grid_value_sum_of_filter (op : String) (hcs : op = "count" ∨ op = "sum")
    (key : AggregateState → Int) (aggs : List AggregateState)
    (step : Int) (hstep : 0 < step) (current stop : Int)
    (hkey : ∀ a ∈ aggs, current ≤ key a ∧ key a < stop ∧ step ∣ (key a - current)) :
    ((gridEntriesAux step
        (fun h =>
          { windowStart := h, windowEnd := h + step,
            value := ((aggs.filter (fun b => key b = h)).foldl
              (totalFoldStep op) (0, 0, false)).1,
            eventCount := ((aggs.filter (fun b => key b = h)).foldl
              (totalFoldStep op) (0, 0, false)).2.1 })
        (stop - current).toNat current stop).map (fun v => v.value)).sum =
      (aggs.map (fun a => a.value)).sum := by
  have hmk : ∀ h,
      ((fun h =>
        ({ windowStart := h, windowEnd := h + step,
           value := ((aggs.filter (fun b => key b = h)).foldl
             (totalFoldStep op) (0, 0, false)).1,
           eventCount := ((aggs.filter (fun b => key b = h)).foldl
             (totalFoldStep op) (0, 0, false)).2.1 } : AggregateValue)) h).value =
      ((aggs.filter (fun a => key a = h)).map (fun a => a.value)).sum := by
    intro h
    dsimp only
    rw [foldl_totalFoldStep_countsum op hcs]
    simp
  have hsum := gridEntriesAux_value_sum step hstep _ key aggs hmk
    (stop - current).toNat current stop (le_refl _)
    (fun a ha => (hkey a ha).2.2)
  rw [hsum]
  have hfe : aggs.filter (fun a => current ≤ key a ∧ key a < stop) = aggs := by
    rw [List.filter_eq_self]
    intro a ha
    simp only [decide_eq_true_eq]
    exact ⟨(hkey a ha).1, (hkey a ha).2.1⟩
  rw [hfe]

theorem rollupToHour_value_sum (aggs : List AggregateState) (startT endT : Int)
    (op : String) (hcs : op = "count" ∨ op = "sum")
    (hop : ∀ a ∈ aggs, a.operator = op)
    (hin : ∀ a ∈ aggs, startT ≤ a.windowStart ∧ a.windowStart < endT) :
    ((rollupToHour aggs startT endT).map (fun v => v.value)).sum =
      (aggs.map (fun a => a.value)).sum := by
  cases aggs with
  | nil =>
      rw [rollupToHour_nil]
      unfold emptyHourlyBuckets
      rw [gridEntries_pos _ _ _ _ hourNs_pos]
      have h0 := gridEntriesAux_value_sum hourNs hourNs_pos
        (fun h =>
          { windowStart := h, windowEnd := h + hourNs,
            value := 0, eventCount := 0 })
        (fun a => bucketFor a.windowStart hourNs) [] (fun h => by simp)
        (endT - bucketFor startT hourNs).toNat (bucketFor startT hourNs) endT
        (le_refl _) (by simp)
      rw [h0]
      simp
  | cons a rest =>
      rw [rollupToHour_cons, gridEntries_pos _ _ _ _ hourNs_pos,
          hop a (List.mem_cons_self a rest)]
      exact grid_value_sum_of_filter op hcs
        (fun b => bucketFor b.windowStart hourNs) (a :: rest) hourNs hourNs_pos
        (bucketFor startT hourNs) endT
        (fun b hb => ⟨bucketFor_mono _ _ _ hourNs_pos (hin b hb).1,
          lt_of_le_of_lt (bucketFor_le _ _ hourNs_pos) (hin b hb).2,
          bucketFor_dvd_sub _ _ _⟩)

theorem rollupToDay_value_sum (aggs : List AggregateState) (startT endT : Int)
    (op : String) (hcs : op = "count" ∨ op = "sum")
    (hop : ∀ a ∈ aggs, a.operator = op)
    (hin : ∀ a ∈ aggs, startT ≤ a.windowStart ∧ a.windowStart < endT) :
    ((rollupToDay aggs startT endT).map (fun v => v.value)).sum =
      (aggs.map (fun a => a.value)).sum := by
  cases aggs with
  | nil =>
      rw [rollupToDay_nil]
      unfold emptyDailyBuckets
      rw [gridEntries_pos _ _ _ _ dayNs_pos]
      have h0 := gridEntriesAux_value_sum dayNs dayNs_pos
        (fun d =>
          { windowStart := d, windowEnd := d + dayNs,
            value := 0, eventCount := 0 })
        (fun a => truncateToDay a.windowStart) [] (fun d => by simp)
        (dayStopOf endT - truncateToDay startT).toNat (truncateToDay startT)
        (dayStopOf endT) (le_refl _) (by simp)
      rw [h0]
      simp
  | cons a rest =>
      rw [rollupToDay_cons, gridEntries_pos _ _ _ _ dayNs_pos,
          hop a (List.mem_cons_self a rest)]
      refine grid_value_sum_of_filter op hcs
        (fun b => truncateToDay b.windowStart) (a :: rest) dayNs dayNs_pos
        (truncateToDay startT) (dayStopOf endT) ?_
      intro b hb
      dsimp only
      refine ⟨?_, ?_, ?_⟩
      · rw [truncateToDay_eq_bucketFor, truncateToDay_eq_bucketFor]
        exact bucketFor_mono _ _ _ dayNs_pos (hin b hb).1
      · have h1 : truncateToDay b.windowStart ≤ b.windowStart := by
          rw [truncateToDay_eq_bucketFor]
          exact bucketFor_le _ _ dayNs_pos
        have h2 := (hin b hb).2
        have h3 := le_dayStopOf endT
        omega
      · rw [truncateToDay_eq_bucketFor, truncateToDay_eq_bucketFor]
        exact bucketFor_dvd_sub _ _ _

theorem rollupTotal_countsum (aggs : List AggregateState) (startT endT : Int)
    (op : String) (hcs : op = "count" ∨ op = "sum")
    (hop : ∀ a ∈ aggs, a.operator = op) :
    (rollupTotal aggs startT endT).map (fun v => v.value) =
      [(aggs.map (fun a => a.value)).sum] := by
  cases aggs with
  | nil => simp [rollupTotal]
  | cons a rest =>
      rw [rollupTotal_cons, hop a (List.mem_cons_self a rest),
        foldl_totalFoldStep_countsum op hcs]
      simp

theorem gridEntriesAux_zero_entry (step : Int) (hstep : 0 < step) (op : String)
    (key : AggregateState → Int) (aggs : List AggregateState)
    (fuel : Nat) (current stop : Int) :
    ∀ v ∈ gridEntriesAux step
        (fun h =>
          { windowStart := h, windowEnd := h + step,
            value := ((aggs.filter (fun b => key b = h)).foldl
              (totalFoldStep op) (0, 0, false)).1,
            eventCount := ((aggs.filter (fun b => key b = h)).foldl
              (totalFoldStep op) (0, 0, false)).2.1 })
        fuel current stop,
      aggs.filter (fun b => key b = v.windowStart) = [] →
      v.value = 0 ∧ v.eventCount = 0 := by
  intro v hv hgroup
  obtain ⟨h, hveq, _, _, _⟩ :=
    gridEntriesAux_shape step hstep _ fuel current stop v hv
  subst hveq
  dsimp only at hgroup ⊢
  rw [hgroup]
  exact ⟨rfl, rfl⟩

theorem rollupTotal_min (a0 : AggregateState) (rest : List AggregateState)
    (startT endT : Int) (hop0 : a0.operator = "min") :
    (rollupTotal (a0 :: rest) startT endT).map (fun v => v.value) =
      [(rest.map (fun b => b.value)).foldl min a0.value] := by
  rw [rollupTotal_cons, hop0, foldl_totalFoldStep_min_cons]
  rfl

theorem rollupTotal_max (a0 : AggregateState) (rest : List AggregateState)
    (startT endT : Int) (hop0 : a0.operator = "max") :
    (rollupTotal (a0 :: rest) startT endT).map (fun v => v.value) =
      [(rest.map (fun b => b.value)).foldl max a0.value] := by
  rw [rollupTotal_cons, hop0, foldl_totalFoldStep_max_cons]
  rfl

theorem grid_group_min_bounds (key : AggregateState → Int)
    (a0 : AggregateState) (rest : List AggregateState) (h : Int)
    (g0 : AggregateState) (gr : List AggregateState)
    (hg : (a0 :: rest).filter (fun b => key b = h) = g0 :: gr) :
    ((((a0 :: rest).filter (fun b => key b = h)).foldl
        (totalFoldStep "min") (0, 0, false)).1 ∈
      (g0 :: gr).map (fun b => b.value)) ∧
    ∀ x ∈ (g0 :: gr).map (fun b => b.value),
      (((a0 :: rest).filter (fun b => key b = h)).foldl
        (totalFoldStep "min") (0, 0, false)).1 ≤ x := by
  rw [hg, foldl_totalFoldStep_min_cons]
  dsimp only
  constructor
  · rw [List.map_cons]
    exact foldl_min_mem _ _
  · rw [List.map_cons]
    exact foldl_min_le _ _

theorem grid_group_max_bounds (key : AggregateState → Int)
    (a0 : AggregateState) (rest : List AggregateState) (h : Int)
    (g0 : AggregateState) (gr : List AggregateState)
    (hg : (a0 :: rest).filter (fun b => key b = h) = g0 :: gr) :
    ((((a0 :: rest).filter (fun b => key b = h)).foldl
        (totalFoldStep "max") (0, 0, false)).1 ∈
      (g0 :: gr).map (fun b => b.value)) ∧
    ∀ x ∈ (g0 :: gr).map (fun b => b.value),
      x ≤ (((a0 :: rest).filter (fun b => key b = h)).foldl
        (totalFoldStep "max") (0, 0, false)).1 := by
  rw [hg, foldl_totalFoldStep_max_cons]
  dsimp only
  constructor
  · rw [List.map_cons]
    exact foldl_max_mem _ _
  · rw [List.map_cons]
    exact foldl_max_ge _ _

theorem grid_min_extremum (key : AggregateState → Int)
    (a0 : AggregateState) (rest : List AggregateState)
    (step : Int) (hstep : 0 < step) (current stop : Int)
    (hkey : ∀ a ∈ a0 :: rest,
      current ≤ key a ∧ key a < stop ∧ step ∣ (key a - current)) :
    ((rest.map (fun b => b.value)).foldl min a0.value ∈
      (((gridEntriesAux step
          (fun h =>
            { windowStart := h, windowEnd := h + step,
              value := (((a0 :: rest).filter (fun b => key b = h)).foldl
                (totalFoldStep "min") (0, 0, false)).1,
              eventCount := (((a0 :: rest).filter (fun b => key b = h)).foldl
                (totalFoldStep "min") (0, 0, false)).2.1 })
          (stop - current).toNat current stop).filter
        (fun v => ((a0 :: rest).filter
          (fun b => key b = v.windowStart)) ≠ [])).map (fun v => v.value))) ∧
    ∀ w ∈ ((gridEntriesAux step
          (fun h =>
            { windowStart := h, windowEnd := h + step,
              value := (((a0 :: rest).filter (fun b => key b = h)).foldl
                (totalFoldStep "min") (0, 0, false)).1,
              eventCount := (((a0 :: rest).filter (fun b => key b = h)).foldl
                (totalFoldStep "min") (0, 0, false)).2.1 })
          (stop - current).toNat current stop).filter
        (fun v => ((a0 :: rest).filter
          (fun b => key b = v.windowStart)) ≠ [])).map (fun v => v.value),
      (rest.map (fun b => b.value)).foldl min a0.value ≤ w := by
  have hmemvals :
      (rest.map (fun b => b.value)).foldl min a0.value ∈
        (a0 :: rest).map (fun b => b.value) := by
    rw [List.map_cons]
    exact foldl_min_mem _ _
  have hlbvals : ∀ x ∈ (a0 :: rest).map (fun b => b.value),
      (rest.map (fun b => b.value)).foldl min a0.value ≤ x := by
    rw [List.map_cons]
    exact foldl_min_le _ _
  constructor
  · obtain ⟨astar, hastar, hval⟩ := List.mem_map.mp hmemvals
    obtain ⟨hc1, hc2, hc3⟩ := hkey astar hastar
    have hentry := gridEntriesAux_mem step hstep
      (fun h =>
        ({ windowStart := h, windowEnd := h + step,
           value := (((a0 :: rest).filter (fun b => key b = h)).foldl
             (totalFoldStep "min") (0, 0, false)).1,
           eventCount := (((a0 :: rest).filter (fun b => key b = h)).foldl
             (totalFoldStep "min") (0, 0, false)).2.1 } : AggregateValue))
      (stop - current).toNat current stop (key astar) (le_refl _) hc1 hc2 hc3
    have hag : astar ∈ (a0 :: rest).filter (fun b => key b = key astar) :=
      List.mem_filter.mpr ⟨hastar, by simp⟩
    cases hg : (a0 :: rest).filter (fun b => key b = key astar) with
    | nil =>
        rw [hg] at hag
        exact absurd hag (List.not_mem_nil _)
    | cons g0 gr =>
        obtain ⟨hv_mem, hv_lb⟩ := grid_group_min_bounds key a0 rest
          (key astar) g0 gr hg
        have hle1 : (((a0 :: rest).filter (fun b => key b = key astar)).foldl
            (totalFoldStep "min") (0, 0, false)).1 ≤
            (rest.map (fun b => b.value)).foldl min a0.value := by
          apply hv_lb
          rw [← hval]
          apply List.mem_map_of_mem
          rw [hg] at hag
          exact hag
        have hle2 : (rest.map (fun b => b.value)).foldl min a0.value ≤
            (((a0 :: rest).filter (fun b => key b = key astar)).foldl
              (totalFoldStep "min") (0, 0, false)).1 := by
          obtain ⟨b, hb, hbeq⟩ := List.mem_map.mp hv_mem
          rw [← hbeq]
          apply hlbvals
          apply List.mem_map_of_mem
          have hbf : b ∈ (a0 :: rest).filter (fun b => key b = key astar) := by
            rw [hg]
            exact hb
          exact (List.mem_filter.mp hbf).1
        refine List.mem_map.mpr ⟨_, List.mem_filter.mpr ⟨hentry, ?_⟩, ?_⟩
        · apply decide_eq_true
          intro hnil
          have hnil' : (a0 :: rest).filter (fun b => key b = key astar) = [] :=
            hnil
          rw [hg] at hnil'
          exact List.cons_ne_nil _ _ hnil'
        · exact le_antisymm hle1 hle2
  · intro w hw
    obtain ⟨v, hvf, hveqw⟩ := List.mem_map.mp hw
    obtain ⟨hv_grid, hv_ne⟩ := List.mem_filter.mp hvf
    have hne := of_decide_eq_true hv_ne
    obtain ⟨h, hveq2, _, _, _⟩ :=
      gridEntriesAux_shape step hstep _ _ current stop v hv_grid
    subst hveq2
    cases hg : (a0 :: rest).filter (fun b => key b = h) with
    | nil =>
        exact absurd hg (by exact hne)
    | cons g0 gr =>
        obtain ⟨hv_mem, _⟩ := grid_group_min_bounds key a0 rest h g0 gr hg
        rw [← hveqw]
        obtain ⟨b, hb, hbeq⟩ := List.mem_map.mp hv_mem
        show (rest.map (fun b => b.value)).foldl min a0.value ≤
          (((a0 :: rest).filter (fun b => key b = h)).foldl
            (totalFoldStep "min") (0, 0, false)).1
        rw [← hbeq]
        apply hlbvals
        apply List.mem_map_of_mem
        have hbf : b ∈ (a0 :: rest).filter (fun b => key b = h) := by
          rw [hg]
          exact hb
        exact (List.mem_filter.mp hbf).1

theorem grid_max_extremum (key : AggregateState → Int)
    (a0 : AggregateState) (rest : List AggregateState)
    (step : Int) (hstep : 0 < step) (current stop : Int)
    (hkey : ∀ a ∈ a0 :: rest,
      current ≤ key a ∧ key a < stop ∧ step ∣ (key a - current)) :
    ((rest.map (fun b => b.value)).foldl max a0.value ∈
      (((gridEntriesAux step
          (fun h =>
            { windowStart := h, windowEnd := h + step,
              value := (((a0 :: rest).filter (fun b => key b = h)).foldl
                (totalFoldStep "max") (0, 0, false)).1,
              eventCount := (((a0 :: rest).filter (fun b => key b = h)).foldl
                (totalFoldStep "max") (0, 0, false)).2.1 })
          (stop - current).toNat current stop).filter
        (fun v => ((a0 :: rest).filter
          (fun b => key b = v.windowStart)) ≠ [])).map (fun v => v.value))) ∧
    ∀ w ∈ ((gridEntriesAux step
          (fun h =>
            { windowStart := h, windowEnd := h + step,
              value := (((a0 :: rest).filter (fun b => key b = h)).foldl
                (totalFoldStep "max") (0, 0, false)).1,
              eventCount := (((a0 :: rest).filter (fun b => key b = h)).foldl
                (totalFoldStep "max") (0, 0, false)).2.1 })
          (stop - current).toNat current stop).filter
        (fun v => ((a0 :: rest).filter
          (fun b => key b = v.windowStart)) ≠ [])).map (fun v => v.value),
      w ≤ (rest.map (fun b => b.value)).foldl max a0.value := by
  have hmemvals :
      (rest.map (fun b => b.value)).foldl max a0.value ∈
        (a0 :: rest).map (fun b => b.value) := by
    rw [List.map_cons]
    exact foldl_max_mem _ _
  have hubvals : ∀ x ∈ (a0 :: rest).map (fun b => b.value),
      x ≤ (rest.map (fun b => b.value)).foldl max a0.value := by
    rw [List.map_cons]
    exact foldl_max_ge _ _
  constructor
  · obtain ⟨astar, hastar, hval⟩ := List.mem_map.mp hmemvals
    obtain ⟨hc1, hc2, hc3⟩ := hkey astar hastar
    have hentry := gridEntriesAux_mem step hstep
      (fun h =>
        ({ windowStart := h, windowEnd := h + step,
           value := (((a0 :: rest).filter (fun b => key b = h)).foldl
             (totalFoldStep "max") (0, 0, false)).1,
           eventCount := (((a0 :: rest).filter (fun b => key b = h)).foldl
             (totalFoldStep "max") (0, 0, false)).2.1 } : AggregateValue))
      (stop - current).toNat current stop (key astar) (le_refl _) hc1 hc2 hc3
    have hag : astar ∈ (a0 :: rest).filter (fun b => key b = key astar) :=
      List.mem_filter.mpr ⟨hastar, by simp⟩
    cases hg : (a0 :: rest).filter (fun b => key b = key astar) with
    | nil =>
        rw [hg] at hag
        exact absurd hag (List.not_mem_nil _)
    | cons g0 gr =>
        obtain ⟨hv_mem, hv_ub⟩ := grid_group_max_bounds key a0 rest
          (key astar) g0 gr hg
        have hle1 : (rest.map (fun b => b.value)).foldl max a0.value ≤
            (((a0 :: rest).filter (fun b => key b = key astar)).foldl
              (totalFoldStep "max") (0, 0, false)).1 := by
          apply hv_ub
          rw [← hval]
          apply List.mem_map_of_mem
          rw [hg] at hag
          exact hag
        have hle2 : (((a0 :: rest).filter (fun b => key b = key astar)).foldl
            (totalFoldStep "max") (0, 0, false)).1 ≤
            (rest.map (fun b => b.value)).foldl max a0.value := by
          obtain ⟨b, hb, hbeq⟩ := List.mem_map.mp hv_mem
          rw [← hbeq]
          apply hubvals
          apply List.mem_map_of_mem
          have hbf : b ∈ (a0 :: rest).filter (fun b => key b = key astar) := by
            rw [hg]
            exact hb
          exact (List.mem_filter.mp hbf).1
        refine List.mem_map.mpr ⟨_, List.mem_filter.mpr ⟨hentry, ?_⟩, ?_⟩
        · apply decide_eq_true
          intro hnil
          have hnil' : (a0 :: rest).filter (fun b => key b = key astar) = [] :=
            hnil
          rw [hg] at hnil'
          exact List.cons_ne_nil _ _ hnil'
        · exact le_antisymm hle2 hle1
  · intro w hw
    obtain ⟨v, hvf, hveqw⟩ := List.mem_map.mp hw
    obtain ⟨hv_grid, hv_ne⟩ := List.mem_filter.mp hvf
    have hne := of_decide_eq_true hv_ne
    obtain ⟨h, hveq2, _, _, _⟩ :=
      gridEntriesAux_shape step hstep _ _ current stop v hv_grid
    subst hveq2
    cases hg : (a0 :: rest).filter (fun b => key b = h) with
    | nil =>
        exact absurd hg (by exact hne)
    | cons g0 gr =>
        obtain ⟨hv_mem, _⟩ := grid_group_max_bounds key a0 rest h g0 gr hg
        rw [← hveqw]
        show (((a0 :: rest).filter (fun b => key b = h)).foldl
            (totalFoldStep "max") (0, 0, false)).1 ≤
          (rest.map (fun b => b.value)).foldl max a0.value
        obtain ⟨b, hb, hbeq⟩ := List.mem_map.mp hv_mem
        rw [← hbeq]
        apply hubvals
        apply List.mem_map_of_mem
        have hbf : b ∈ (a0 :: rest).filter (fun b => key b = h) := by
          rw [hg]
          exact hb
        exact (List.mem_filter.mp hbf).1

theorem rollupToHour_windowStarts (aggs : List AggregateState)
    (startT endT : Int) :
    (rollupToHour aggs startT endT).map (fun v => v.windowStart) =
      hourGridPoints startT endT := by
  cases aggs with
  | nil =>
      rw [rollupToHour_nil]
      unfold emptyHourlyBuckets hourGridPoints
      rw [gridEntries_pos _ _ _ _ hourNs_pos]
      exact gridEntriesAux_map_windowStart hourNs _ (fun h => rfl) _ _ _
  | cons a rest =>
      rw [rollupToHour_cons, gridEntries_pos _ _ _ _ hourNs_pos]
      unfold hourGridPoints
      exact gridEntriesAux_map_windowStart hourNs _ (fun h => rfl) _ _ _

theorem rollupToDay_windowStarts (aggs : List AggregateState)
    (startT endT : Int) :
    (rollupToDay aggs startT endT).map (fun v => v.windowStart) =
      dayGridPoints startT endT := by
  cases aggs with
  | nil =>
      rw [rollupToDay_nil]
      unfold emptyDailyBuckets dayGridPoints
      rw [gridEntries_pos _ _ _ _ dayNs_pos]
      exact gridEntriesAux_map_windowStart dayNs _ (fun d => rfl) _ _ _
  | cons a rest =>
      rw [rollupToDay_cons, gridEntries_pos _ _ _ _ dayNs_pos]
      unfold dayGridPoints
      exact gridEntriesAux_map_windowStart dayNs _ (fun d => rfl) _ _ _

theorem rollupToHour_zero_of_empty (aggs : List AggregateState)
    (startT endT : Int) :
    ∀ v ∈ rollupToHour aggs startT endT,
      aggs.filter (fun a => bucketFor a.windowStart hourNs = v.windowStart) = [] →
      v.value = 0 ∧ v.eventCount = 0 := by
  cases aggs with
  | nil =>
      intro v hv _
      rw [rollupToHour_nil] at hv
      unfold emptyHourlyBuckets at hv
      rw [gridEntries_pos _ _ _ _ hourNs_pos] at hv
      obtain ⟨h, hveq, _, _, _⟩ :=
        gridEntriesAux_shape hourNs hourNs_pos _ _ _ _ v hv
      subst hveq
      exact ⟨rfl, rfl⟩
  | cons a rest =>
      intro v hv hemp
      rw [rollupToHour_cons, gridEntries_pos _ _ _ _ hourNs_pos] at hv
      exact gridEntriesAux_zero_entry hourNs hourNs_pos a.operator
        (fun b => bucketFor b.windowStart hourNs) (a :: rest) _ _ _ v hv hemp

theorem rollupToDay_zero_of_empty (aggs : List AggregateState)
    (startT endT : Int) :
    ∀ v ∈ rollupToDay aggs startT endT,
      aggs.filter (fun a => truncateToDay a.windowStart = v.windowStart) = [] →
      v.value = 0 ∧ v.eventCount = 0 := by
  cases aggs with
  | nil =>
      intro v hv _
      rw [rollupToDay_nil] at hv
      unfold emptyDailyBuckets at hv
      rw [gridEntries_pos _ _ _ _ dayNs_pos] at hv
      obtain ⟨d, hveq, _, _, _⟩ :=
        gridEntriesAux_shape dayNs dayNs_pos _ _ _ _ v hv
      subst hveq
      exact ⟨rfl, rfl⟩
  | cons a rest =>
      intro v hv hemp
      rw [rollupToDay_cons, gridEntries_pos _ _ _ _ dayNs_pos] at hv
      exact gridEntriesAux_zero_entry dayNs dayNs_pos a.operator
        (fun b => truncateToDay b.windowStart) (a :: rest) _ _ _ v hv hemp

/-- **C8** counterexample.  A single merged 1m bucket with operator `min`,
value 4, window start 0, queried over the two-hour range [0, 2h): the total
roll-up yields value 4, but the hourly roll-up emits the empty second hour
as a zero entry, so the extremum (minimum) of the emitted 1h values is 0,
not 4.  The claimed identity `total = extremum(1h)` therefore fails; the
zero entries that `rollupToHour`/`rollupToDay` emit for empty groups enter
the extremum. -/
theorem rollup_minmax_composition_counterexample :
    (rollupTotal [c8MinAgg] 0 7200000000000).map (fun v => v.value) = [4] ∧
    (rollupToHour [c8MinAgg] 0 7200000000000).map (fun v => v.value) = [4, 0] ∧
    ((0 : ℚ) ∈ (rollupToHour [c8MinAgg] 0 7200000000000).map (fun v => v.value) ∧
      ∀ w ∈ (rollupToHour [c8MinAgg] 0 7200000000000).map (fun v => v.value),
        (0 : ℚ) ≤ w) ∧
    (4 : ℚ) ≠ 0 := by decide

/-- **C8** (amended).  Over identical ranges and merged 1m buckets that all
carry the same operator and fall inside [start, end): the hourly and daily
roll-ups emit exactly one entry per grid point across the full requested
range, with empty groups emitted as zero entries (value 0, event count 0);
for count and sum, the total-granularity value equals the sum of the 1m
bucket values, the sum of the emitted 1h values, and the sum of the emitted
1d values; for min (resp. max), the total value equals the extremum of the
1m bucket values and the extremum of the values of the NON-EMPTY 1h and 1d
groups — not of all emitted entries, since empty groups contribute zero
entries (see the counterexample). -/
theorem rollup_composition_amended
    (aggs : List AggregateState) (startT endT : Int) (op : String)
    (hop : ∀ a ∈ aggs, a.operator = op)
    (hin : ∀ a ∈ aggs, startT ≤ a.windowStart ∧ a.windowStart < endT) :
    ((rollupToHour aggs startT endT).map (fun v => v.windowStart) =
      hourGridPoints startT endT) ∧
    ((rollupToDay aggs startT endT).map (fun v => v.windowStart) =
      dayGridPoints startT endT) ∧
    (∀ v ∈ rollupToHour aggs startT endT,
      aggs.filter (fun a => bucketFor a.windowStart hourNs = v.windowStart) = [] →
      v.value = 0 ∧ v.eventCount = 0) ∧
    (∀ v ∈ rollupToDay aggs startT endT,
      aggs.filter (fun a => truncateToDay a.windowStart = v.windowStart) = [] →
      v.value = 0 ∧ v.eventCount = 0) ∧
    (op = "count" ∨ op = "sum" →
      (rollupTotal aggs startT endT).map (fun v => v.value) =
        [((convertToValues aggs minuteNs).map (fun v => v.value)).sum] ∧
      ((rollupToHour aggs startT endT).map (fun v => v.value)).sum =
        ((convertToValues aggs minuteNs).map (fun v => v.value)).sum ∧
      ((rollupToDay aggs startT endT).map (fun v => v.value)).sum =
        ((convertToValues aggs minuteNs).map (fun v => v.value)).sum) ∧
    (op = "min" → ∀ a0 rest, aggs = a0 :: rest →
      ∃ m, (rollupTotal aggs startT endT).map (fun v => v.value) = [m] ∧
        (m ∈ (convertToValues aggs minuteNs).map (fun v => v.value) ∧
         ∀ w ∈ (convertToValues aggs minuteNs).map (fun v => v.value), m ≤ w) ∧
        (m ∈ ((rollupToHour aggs startT endT).filter
            (fun v => aggs.filter
              (fun a => bucketFor a.windowStart hourNs = v.windowStart) ≠ [])).map
            (fun v => v.value) ∧
         ∀ w ∈ ((rollupToHour aggs startT endT).filter
            (fun v => aggs.filter
              (fun a => bucketFor a.windowStart hourNs = v.windowStart) ≠ [])).map
            (fun v => v.value), m ≤ w) ∧
        (m ∈ ((rollupToDay aggs startT endT).filter
            (fun v => aggs.filter
              (fun a => truncateToDay a.windowStart = v.windowStart) ≠ [])).map
            (fun v => v.value) ∧
         ∀ w ∈ ((rollupToDay aggs startT endT).filter
            (fun v => aggs.filter
              (fun a => truncateToDay a.windowStart = v.windowStart) ≠ [])).map
            (fun v => v.value), m ≤ w)) ∧
    (op = "max" → ∀ a0 rest, aggs = a0 :: rest →
      ∃ m, (rollupTotal aggs startT endT).map (fun v => v.value) = [m] ∧
        (m ∈ (convertToValues aggs minuteNs).map (fun v => v.value) ∧
         ∀ w ∈ (convertToValues aggs minuteNs).map (fun v => v.value), w ≤ m) ∧
        (m ∈ ((rollupToHour aggs startT endT).filter
            (fun v => aggs.filter
              (fun a => bucketFor a.windowStart hourNs = v.windowStart) ≠ [])).map
            (fun v => v.value) ∧
         ∀ w ∈ ((rollupToHour aggs startT endT).filter
            (fun v => aggs.filter
              (fun a => bucketFor a.windowStart hourNs = v.windowStart) ≠ [])).map
            (fun v => v.value), w ≤ m) ∧
        (m ∈ ((rollupToDay aggs startT endT).filter
            (fun v => aggs.filter
              (fun a => truncateToDay a.windowStart = v.windowStart) ≠ [])).map
            (fun v => v.value) ∧
         ∀ w ∈ ((rollupToDay aggs startT endT).filter
            (fun v => aggs.filter
              (fun a => truncateToDay a.windowStart = v.windowStart) ≠ [])).map
            (fun v => v.value), w ≤ m)) := by
  refine ⟨rollupToHour_windowStarts aggs startT endT,
          rollupToDay_windowStarts aggs startT endT,
          rollupToHour_zero_of_empty aggs startT endT,
          rollupToDay_zero_of_empty aggs startT endT,
          ?_, ?_, ?_⟩
  · intro hcs
    rw [convertToValues_values]
    exact ⟨rollupTotal_countsum aggs startT endT op hcs hop,
           rollupToHour_value_sum aggs startT endT op hcs hop hin,
           rollupToDay_value_sum aggs startT endT op hcs hop hin⟩
  · intro hmin a0 rest heq
    subst hmin
    subst heq
    refine ⟨(rest.map (fun b => b.value)).foldl min a0.value,
      rollupTotal_min a0 rest startT endT
        (hop a0 (List.mem_cons_self a0 rest)), ?_, ?_, ?_⟩
    · rw [convertToValues_values]
      constructor
      · rw [List.map_cons]
        exact foldl_min_mem _ _
      · rw [List.map_cons]
        exact foldl_min_le _ _
    · rw [rollupToHour_cons, gridEntries_pos _ _ _ _ hourNs_pos,
          hop a0 (List.mem_cons_self a0 rest)]
      exact grid_min_extremum (fun b => bucketFor b.windowStart hourNs) a0 rest
        hourNs hourNs_pos (bucketFor startT hourNs) endT
        (fun b hb => ⟨bucketFor_mono _ _ _ hourNs_pos (hin b hb).1,
          lt_of_le_of_lt (bucketFor_le _ _ hourNs_pos) (hin b hb).2,
          bucketFor_dvd_sub _ _ _⟩)
    · rw [rollupToDay_cons, gridEntries_pos _ _ _ _ dayNs_pos,
          hop a0 (List.mem_cons_self a0 rest)]
      refine grid_min_extremum (fun b => truncateToDay b.windowStart) a0 rest
        dayNs dayNs_pos (truncateToDay startT) (dayStopOf endT) ?_
      intro b hb
      dsimp only
      refine ⟨?_, ?_, ?_⟩
      · rw [truncateToDay_eq_bucketFor, truncateToDay_eq_bucketFor]
        exact bucketFor_mono _ _ _ dayNs_pos (hin b hb).1
      · have h1 : truncateToDay b.windowStart ≤ b.windowStart := by
          rw [truncateToDay_eq_bucketFor]
          exact bucketFor_le _ _ dayNs_pos
        have h2 := (hin b hb).2
        have h3 := le_dayStopOf endT
        omega
      · rw [truncateToDay_eq_bucketFor, truncateToDay_eq_bucketFor]
        exact bucketFor_dvd_sub _ _ _
  · intro hmax a0 rest heq
    subst hmax
    subst heq
    refine ⟨(rest.map (fun b => b.value)).foldl max a0.value,
      rollupTotal_max a0 rest startT endT
        (hop a0 (List.mem_cons_self a0 rest)), ?_, ?_, ?_⟩
    · rw [convertToValues_values]
      constructor
      · rw [List.map_cons]
        exact foldl_max_mem _ _
      · rw [List.map_cons]
        exact foldl_max_ge _ _
    · rw [rollupToHour_cons, gridEntries_pos _ _ _ _ hourNs_pos,
          hop a0 (List.mem_cons_self a0 rest)]
      exact grid_max_extremum (fun b => bucketFor b.windowStart hourNs) a0 rest
        hourNs hourNs_pos (bucketFor startT hourNs) endT
        (fun b hb => ⟨bucketFor_mono _ _ _ hourNs_pos (hin b hb).1,
          lt_of_le_of_lt (bucketFor_le _ _ hourNs_pos) (hin b hb).2,
          bucketFor_dvd_sub _ _ _⟩)
    · rw [rollupToDay_cons, gridEntries_pos _ _ _ _ dayNs_pos,
          hop a0 (List.mem_cons_self a0 rest)]
      refine grid_max_extremum (fun b => truncateToDay b.windowStart) a0 rest
        dayNs dayNs_pos (truncateToDay startT) (dayStopOf endT) ?_
      intro b hb
      dsimp only
      refine ⟨?_, ?_, ?_⟩
      · rw [truncateToDay_eq_bucketFor, truncateToDay_eq_bucketFor]
        exact bucketFor_mono _ _ _ dayNs_pos (hin b hb).1
      · have h1 : truncateToDay b.windowStart ≤ b.windowStart := by
          rw [truncateToDay_eq_bucketFor]
          exact bucketFor_le _ _ dayNs_pos
        have h2 := (hin b hb).2
        have h3 := le_dayStopOf endT
        omega
      · rw [truncateToDay_eq_bucketFor, truncateToDay_eq_bucketFor]
        exact bucketFor_dvd_sub _ _ _

theorem rollup_composition_amended_witness :
    (rollupToHour [c8MinAgg] 0 7200000000000).map (fun v => v.windowStart) =
      hourGridPoints 0 7200000000000 :=
  (rollup_composition_amended [c8MinAgg] 0 7200000000000 "min"
    (by decide) (by decide)).1

/-! ## Read-path completeness probe (claim C1) -/

/-- **C1** (code bug).  The write path keys pre-aggregate rows by
`partition.For(principal_id)` (122 for principal "p1"), but `QueryRange`
reads with a fixed `partition_id = 0`, so a successful `QueryAggregates`
does NOT include the contribution of events already folded into durable
pre-aggregates.  Concretely: starting from one stored event, one engine
iteration flushes a row under partition 122 and advances the "1m"
checkpoint past the event; the event then matches the query's scope in
every claimed respect, yet the pre-aggregate read returns nothing (while
the same read over the same rows re-keyed to partition 0 finds them), the
tail scan past the checkpoint returns nothing, and the successful query
reports a single total of value 0 and event count 0. -/
theorem read_path_partition_mismatch :
    partitionFor "p1" = 122 ∧
    runBatchAggregationWithOptionsReturningCount c1Sys0 [sampleCountRule]
      DefaultBatchJobOptions 0 = .ok (c1SysAfter, 1) ∧
    c1SysAfter.es = sampleStore ∧
    (c1SysAfter.pas.table.map (fun kv =>
      (kv.1.partitionID, kv.1.principalID, kv.1.ruleName, kv.1.bucketSize,
        kv.1.windowStart))) = [(122, "p1", "count_api_requests", "1m", 0)] ∧
    readCheckpoint c1SysAfter.pas "1m" = 1 ∧
    (sampleStoredEvent ∈ c1SysAfter.es.log ∧
      sampleStoredEvent.type = sampleCountRule.sourceEvent ∧
      sampleStoredEvent.principalID = c1Req.principalID ∧
      c1Req.start ≤ sampleStoredEvent.occurredAt ∧
      sampleStoredEvent.occurredAt < c1Req.endTime ∧
      sampleStoredEvent.ingestSeq < c1SysAfter.es.nextSeq) ∧
    queryRange c1SysAfter.pas "p1" "count_api_requests" "1m" 0 60000000000 =
      [] ∧
    queryRange
      { checkpoints := c1SysAfter.pas.checkpoints,
        table := c1SysAfter.pas.table.map
          (fun kv => ({ kv.1 with partitionID := 0 }, kv.2)) }
      "p1" "count_api_requests" "1m" 0 60000000000 ≠ [] ∧
    scanScopedRawEvents c1SysAfter.es (readCheckpoint c1SysAfter.pas "1m")
      c1Req.tenantID "p1" "api.request" 0 60000000000 = .ok [] ∧
    (queryAggregates c1SysAfter [sampleCountRule] c1Req 60000000000).map
      (fun r => r.values.map (fun v => (v.value, v.eventCount))) =
      .ok [((0 : ℚ), (0 : Int))] :=
  ⟨by decide, rfl, rfl, by decide, by decide,
   ⟨by decide, by decide, by decide, by decide, by decide, by decide⟩,
   by decide, by decide, rfl, rfl⟩

end Aevon
